import Mathlib

/-!
Verification of the nanobanana manga-generation pipeline (TypeScript source)
against its natural-language specification.

The development shallowly embeds the relevant parts of the source:

* the image auto-review `reviewGeneratedImage` (scoring thresholds,
  conjunctive pass gating, the auto-pass branches);
* the story parser (the page-marker split regex, modelled over the full
  character stream of the document — JavaScript `\s` matches the newline,
  so a marker may span lines — and the single-page fallback);
* the `MemoryHandler` page-block ledger (`updateMemory`, `checkMemory`,
  `getFailures`), modelled per line of the page block;
* the per-page generation loop of `generateMangaPage` (memory/disk skip,
  two-phase resume, retry budget, early returns), with the external
  generation and review services modelled as per-attempt oracles.

JavaScript `x || d` defaulting (`0` and the empty string are falsy) is
modelled explicitly.  The memory-file page block, which the source
manipulates per line, is modelled as its list of lines; the
correspondence is exact for line content free of embedded newlines.
-/

namespace NanoBanana

/-- JS `opt || d` for an optional numeric option: `undefined` and `0` are falsy. -/
def jsOrNat (o : Option Nat) (d : Nat) : Nat :=
  match o with
  | none => d
  | some n => if n = 0 then d else n

/-- JS truthiness filter: `some 0` behaves like `none`. -/
def jsTruthyNat (o : Option Nat) : Option Nat :=
  match o with
  | none => none
  | some n => if n = 0 then none else some n

/-- JS `s || d` for an optional string: `undefined` and `""` are falsy. -/
def jsOrStr (s : Option String) (d : String) : String :=
  match s with
  | none => d
  | some x => if x = "" then d else x

/-- Boolean infix test on lists (JS substring containment, on exploded strings). -/
def infixOf (pat : List Char) : List Char → Bool
  | [] => pat.isEmpty
  | c :: t => pat.isPrefixOf (c :: t) || infixOf pat t

/-- JS `String.prototype.includes`: substring containment. -/
def strContains (s pat : String) : Bool :=
  infixOf pat.toList s.toList

/-- JS `\s`-style whitespace (restricted to the characters that can occur in
a line of text; lines, by construction, contain no newline). -/
def isWsChar (c : Char) : Bool :=
  c = ' ' || c = '\t' || c = '\r' || c = '\n' || c = '\x0b' || c = '\x0c'

/-- Case-insensitive literal matching: drop the (lowercase) pattern from the
front of the character list, comparing case-insensitively. -/
def dropCI : List Char → List Char → Option (List Char)
  | [], cs => some cs
  | _ :: _, [] => none
  | p :: ps, c :: cs => if c.toLower = p then dropCI ps cs else none

/-- JS `String.prototype.trim`. -/
def jsTrim (s : String) : String :=
  String.mk (((s.toList.dropWhile isWsChar).reverse.dropWhile isWsChar).reverse)

/-! ## The review model (`reviewGeneratedImage`) -/

/-- A reference image as passed to the reviewer (`data`/`mimeType`/`sourcePath`). -/
structure RefImage where
  data : String
  mimeType : String
  sourcePath : String
deriving Repr, DecidableEq

/-- The filter at the top of `reviewGeneratedImage`: a reference counts as a
character reference when its path includes `characters/` or `_portrait`. -/
def isCharacterRef (r : RefImage) : Bool :=
  strContains r.sourcePath "characters/" || strContains r.sourcePath "_portrait"

def characterRefs (refs : List RefImage) : List RefImage :=
  refs.filter isCharacterRef

/-- The options record accepted by `reviewGeneratedImage`. -/
structure ReviewOptions where
  minScore : Option Nat := none
  minLikeness : Option Nat := none
  minStory : Option Nat := none
  minContinuity : Option Nat := none
  minLettering : Option Nat := none
  minNoBubbles : Option Nat := none
  isPhase1 : Bool := false
  isColor : Bool := false
deriving Repr

/-- The parsed JSON review payload; each field may be missing
(the source then defaults it via `?? 0` resp. `|| "No reason provided."`). -/
structure RawReview where
  total_score : Option Int := none
  likeness_score : Option Int := none
  story_score : Option Int := none
  continuity_score : Option Int := none
  no_bubbles_score : Option Int := none
  lettering_score : Option Int := none
  reason : Option String := none
deriving Repr

/-- Outcome of the review model call, as seen by `reviewGeneratedImage`:
either the response text parsed as JSON, or `JSON.parse` threw, or the
call itself (model invocation, file read, missing response text) threw. -/
inductive ReviewResponse where
  | parsed (r : RawReview)
  | parseFailure
  | callFailure
deriving Repr

/-- The record returned by `reviewGeneratedImage`. -/
structure ReviewOutcome where
  pass : Bool
  score : Int
  reason : String
  likeness_score : Option Int := none
  lettering_score : Option Int := none
deriving Repr, DecidableEq

/-- `const scoreThreshold = minScore * 40` with `minScore = options.minScore || 8`. -/
def scoreThreshold (o : ReviewOptions) : Nat :=
  jsOrNat o.minScore 8 * 40

/-- `minLikeness ? minLikeness * 10 : 70`. -/
def thresholdLikeness (o : ReviewOptions) : Nat :=
  match jsTruthyNat o.minLikeness with
  | some n => n * 10
  | none => 70

/-- `minStory ? minStory * 10 : 70`. -/
def thresholdStory (o : ReviewOptions) : Nat :=
  match jsTruthyNat o.minStory with
  | some n => n * 10
  | none => 70

/-- `minContinuity ? minContinuity * 10 : 70`. -/
def thresholdContinuity (o : ReviewOptions) : Nat :=
  match jsTruthyNat o.minContinuity with
  | some n => n * 10
  | none => 70

/-- The lettering/no-bubbles threshold: in phase 1, `minNoBubbles*10`, else
`minLettering*10`, else `50`; in the final phase, `minLettering*10` else `95`. -/
def thresholdLettering (o : ReviewOptions) : Nat :=
  if o.isPhase1 then
    match jsTruthyNat o.minNoBubbles with
    | some n => n * 10
    | none =>
      match jsTruthyNat o.minLettering with
      | some n => n * 10
      | none => 50
  else
    match jsTruthyNat o.minLettering with
    | some n => n * 10
    | none => 95

/-- Shallow embedding of `reviewGeneratedImage` (source lines 635-816):
filter character references, auto-pass when none are present, auto-pass
(score 0) when the review response cannot be parsed or the call throws,
otherwise recompute the pass flag by conjunctive gating. -/
def reviewGeneratedImage (references : List RefImage) (opts : ReviewOptions)
    (resp : ReviewResponse) : ReviewOutcome :=
  if (characterRefs references).isEmpty then
    { pass := true, score := 10, reason := "No references to check against." }
  else
    match resp with
    | .callFailure =>
      { pass := true, score := 0, reason := "Review failed to execute." }
    | .parseFailure =>
      { pass := true, score := 0, reason := "Review failed to parse JSON response." }
    | .parsed r =>
      let total := r.total_score.getD 0
      let likeness := r.likeness_score.getD 0
      let story := r.story_score.getD 0
      let continuity := r.continuity_score.getD 0
      let noBubbles := r.no_bubbles_score.getD 0
      let lettering := r.lettering_score.getD 0
      let calculatedPass : Bool :=
        decide (total ≥ (scoreThreshold opts : Int)) &&
        decide (likeness ≥ (thresholdLikeness opts : Int)) &&
        decide (story ≥ (thresholdStory opts : Int)) &&
        decide (continuity ≥ (thresholdContinuity opts : Int)) &&
        (if opts.isPhase1 then decide (noBubbles ≥ (thresholdLettering opts : Int))
         else decide (lettering ≥ (thresholdLettering opts : Int)))
      { pass := calculatedPass
        score := total
        reason := jsOrStr r.reason "No reason provided."
        likeness_score := some likeness
        lettering_score := some (if opts.isPhase1 then noBubbles else lettering) }

/-! ### Claims C1, C6, C9 -/

/-- C1 — Conjunctive review gating: for every review response that parses
successfully, with at least one character reference attached, the recomputed
pass flag is true iff the total score clears `minScore * 40` (default 320)
and the likeness, story, continuity and lettering-or-no-bubbles sub-scores
each clear their own configured thresholds; in particular a result whose
total score is above threshold but whose likeness sub-score is below its own
threshold yields `pass = false`. -/
theorem c1_conjunctive_gating (refs : List RefImage) (opts : ReviewOptions)
    (r : RawReview) (h : (characterRefs refs).isEmpty = false) :
    ((reviewGeneratedImage refs opts (.parsed r)).pass = true ↔
      (r.total_score.getD 0 ≥ (jsOrNat opts.minScore 8 * 40 : Int) ∧
       r.likeness_score.getD 0 ≥ (thresholdLikeness opts : Int) ∧
       r.story_score.getD 0 ≥ (thresholdStory opts : Int) ∧
       r.continuity_score.getD 0 ≥ (thresholdContinuity opts : Int) ∧
       (if opts.isPhase1 then r.no_bubbles_score.getD 0 ≥ (thresholdLettering opts : Int)
        else r.lettering_score.getD 0 ≥ (thresholdLettering opts : Int)))) ∧
    (reviewGeneratedImage refs ({} : ReviewOptions)
      (.parsed { total_score := some 380, likeness_score := some 60,
                 story_score := some 100, continuity_score := some 100,
                 lettering_score := some 100 })).pass = false := by
  constructor
  · simp only [reviewGeneratedImage, h, Bool.false_eq_true, if_false,
      Bool.and_eq_true, decide_eq_true_eq, scoreThreshold]
    cases hp : opts.isPhase1 <;> simp [hp, and_assoc]
  · simp only [reviewGeneratedImage, h, Bool.false_eq_true, if_false]
    decide

/-- Witness for `c1_conjunctive_gating` at a concrete input: a review with
total 380/400 (above the default threshold 320) but likeness 60 (below its
default threshold 70) fails. -/
theorem c1_conjunctive_gating_witness :
    (reviewGeneratedImage [{ data := "", mimeType := "image/png",
                             sourcePath := "refs/characters/kenji.png" }]
        ({} : ReviewOptions)
        (.parsed { total_score := some 380, likeness_score := some 60,
                   story_score := some 100, continuity_score := some 100,
                   lettering_score := some 100 })).pass = false :=
  (c1_conjunctive_gating
     [{ data := "", mimeType := "image/png",
        sourcePath := "refs/characters/kenji.png" }]
     ({} : ReviewOptions)
     { total_score := some 380, likeness_score := some 60,
       story_score := some 100, continuity_score := some 100,
       lettering_score := some 100 }
     (by decide)).2

/-- C6 — Review-parse auto-pass: with at least one character reference
attached, a review invocation whose model response is not parseable as JSON,
or whose review call throws, returns `pass = true` with score 0, so the
candidate artifact is accepted rather than retried. -/
theorem c6_review_parse_auto_pass (refs : List RefImage) (opts : ReviewOptions)
    (h : (characterRefs refs).isEmpty = false) :
    (reviewGeneratedImage refs opts .parseFailure).pass = true ∧
    (reviewGeneratedImage refs opts .parseFailure).score = 0 ∧
    (reviewGeneratedImage refs opts .callFailure).pass = true ∧
    (reviewGeneratedImage refs opts .callFailure).score = 0 := by
  simp [reviewGeneratedImage, h]

/-- Witness for `c6_review_parse_auto_pass` at a concrete input. -/
theorem c6_review_parse_auto_pass_witness :
    (reviewGeneratedImage [{ data := "", mimeType := "image/png",
                             sourcePath := "out/kenji_portrait.png" }]
      ({} : ReviewOptions) .parseFailure).pass = true :=
  (c6_review_parse_auto_pass
    [{ data := "", mimeType := "image/png",
       sourcePath := "out/kenji_portrait.png" }] ({} : ReviewOptions) (by decide)).1

/-- C9 — Review skipped without character references: whenever the reference
list contains no path including `characters/` or `_portrait`,
`reviewGeneratedImage` returns `pass = true` with score 10 uniformly in the
review response — i.e. without consulting the review model at all — so every
candidate artifact is accepted. -/
theorem c9_no_character_refs_auto_pass (refs : List RefImage)
    (opts : ReviewOptions) (resp : ReviewResponse)
    (h : ∀ r ∈ refs, isCharacterRef r = false) :
    reviewGeneratedImage refs opts resp =
      { pass := true, score := 10, reason := "No references to check against." } := by
  have hempty : (characterRefs refs).isEmpty = true := by
    simp only [characterRefs, List.isEmpty_iff, List.filter_eq_nil_iff]
    intro r hr
    simp [h r hr]
  simp [reviewGeneratedImage, hempty]

/-- Witness for `c9_no_character_refs_auto_pass` at a concrete input. -/
theorem c9_no_character_refs_auto_pass_witness :
    reviewGeneratedImage
      [{ data := "d", mimeType := "image/png", sourcePath := "Previous Page Reference" }]
      ({ isPhase1 := true } : ReviewOptions) .parseFailure =
      { pass := true, score := 10, reason := "No references to check against." } :=
  c9_no_character_refs_auto_pass
    [{ data := "d", mimeType := "image/png", sourcePath := "Previous Page Reference" }]
    ({ isPhase1 := true } : ReviewOptions) .parseFailure (by decide)

/-! ## The story parser

The source splits the story file on the regex
`(?:^|\n)((?:#{1,3}\s*Page\s*\d+|Page\s*\d+:)[^\n]*)/i` (lines 1463-1484).
A match can begin only at the start of the document or immediately after a
newline (which the match then consumes), but JavaScript `\s` also matches
the newline character, so the marker itself may span several lines: the
`#` run may be separated from `Page`, and `Page` from its number, by
whitespace that includes newlines.  The trailing `[^\n]*` then extends the
capture to the end of the line on which the marker completed.  The split
is therefore modelled over the full character stream of the document. -/

/-- First alternative of the marker, `#{1,3}\s*Page\s*\d+`, tried at the
current position: one to three `#` (a run of four or more fails: on
backtracking a leftover `#` matches neither `\s` nor `P`), whitespace
(newlines included), `Page` case-insensitively, whitespace, at least one
digit.  Returns the number of characters consumed. -/
def matchAlt1 (cs : List Char) : Option Nat :=
  let hn := (cs.takeWhile (fun c => c = '#')).length
  if 1 ≤ hn ∧ hn ≤ 3 then
    let w1 := ((cs.drop hn).takeWhile isWsChar).length
    match dropCI ['p', 'a', 'g', 'e'] ((cs.drop hn).drop w1) with
    | some rest =>
      let w2 := (rest.takeWhile isWsChar).length
      let d := ((rest.drop w2).takeWhile Char.isDigit).length
      if 1 ≤ d then some (hn + w1 + 4 + w2 + d) else none
    | none => none
  else none

/-- Second alternative of the marker, `Page\s*\d+:`: `Page`
case-insensitively at the current position, whitespace (newlines
included), a maximal run of at least one digit, then a colon.  Returns the
number of characters consumed. -/
def matchAlt2 (cs : List Char) : Option Nat :=
  match dropCI ['p', 'a', 'g', 'e'] cs with
  | some rest =>
    let w := (rest.takeWhile isWsChar).length
    let d := ((rest.drop w).takeWhile Char.isDigit).length
    match (rest.drop w).drop d with
    | ':' :: _ => if 1 ≤ d then some (4 + w + d + 1) else none
    | _ => none
  | none => none

/-- The capture `((?:#{1,3}\s*Page\s*\d+|Page\s*\d+:)[^\n]*)` tried at the
current position: one of the two alternatives (mutually exclusive, one
starts with `#` and the other with `P`), extended by `[^\n]*` to the end
of the line on which the alternative completed.  Returns the captured text
and the remainder of the document after the match. -/
def matchBody (cs : List Char) : Option (List Char × List Char) :=
  match (match matchAlt1 cs with | some n => some n | none => matchAlt2 cs) with
  | some n =>
    some (cs.take n ++ (cs.drop n).takeWhile (fun c => c ≠ '\n'),
          (cs.drop n).dropWhile (fun c => c ≠ '\n'))
  | none => none

/-- Scan for the leftmost match that begins right after a newline; the
newline is consumed by the match and excluded from the text before it. -/
def findMarkerAux : List Char → Option (List Char × List Char × List Char)
  | [] => none
  | c :: cs =>
    match (if c = '\n' then matchBody cs else none) with
    | some (cap, rest) => some ([], cap, rest)
    | none =>
      match findMarkerAux cs with
      | some (pre, cap, rest) => some (c :: pre, cap, rest)
      | none => none

/-- Leftmost match of the split regex `(?:^|\n)(...)`: a match begins at
the start of the document or immediately after a newline.  Returns the
text before the match (any consumed newline excluded), the capture, and
the remainder of the document after the match. -/
def findMarker (cs : List Char) : Option (List Char × List Char × List Char) :=
  match matchBody cs with
  | some (cap, rest) => some ([], cap, rest)
  | none => findMarkerAux cs

/-- A successful first alternative consumes at least four characters. -/
theorem matchAlt1_ge (cs : List Char) (n : Nat) (h : matchAlt1 cs = some n) :
    4 ≤ n := by
  simp only [matchAlt1] at h
  split at h
  · split at h
    · split at h
      · rw [Option.some.injEq] at h
        omega
      · simp at h
    · simp at h
  · simp at h

/-- A successful second alternative consumes at least five characters. -/
theorem matchAlt2_ge (cs : List Char) (n : Nat) (h : matchAlt2 cs = some n) :
    5 ≤ n := by
  simp only [matchAlt2] at h
  split at h
  · split at h
    · split at h
      · rw [Option.some.injEq] at h
        omega
      · simp at h
    · simp at h
  · simp at h

/-- Dropping the first chunk of a list after a `takeWhile` leaves a list
ending in either nothing or a newline-fronted tail. -/
theorem dropWhile_ne_newline_shape (l : List Char) :
    l.dropWhile (fun c => c ≠ '\n') = [] ∨
      ∃ t, l.dropWhile (fun c => c ≠ '\n') = '\n' :: t := by
  induction l with
  | nil => exact Or.inl rfl
  | cons c t ih =>
    by_cases hc : c = '\n'
    · subst hc
      exact Or.inr ⟨t, by rw [List.dropWhile_cons_of_neg (by simp)]⟩
    · rw [List.dropWhile_cons_of_pos (by simp [hc])]
      exact ih

/-- The body never matches the empty document. -/
theorem matchBody_nil : matchBody [] = none := by decide

/-- A successful body match consumes at least one character. -/
theorem matchBody_shrink (cs cap rest : List Char)
    (hm : matchBody cs = some (cap, rest)) : rest.length < cs.length := by
  cases cs with
  | nil =>
    rw [matchBody_nil] at hm
    simp at hm
  | cons c cs =>
    simp only [matchBody] at hm
    split at hm
    · rename_i n hcore
      rw [Option.some.injEq, Prod.mk.injEq] at hm
      obtain ⟨-, hrest⟩ := hm
      have hn : 1 ≤ n := by
        rcases h1 : matchAlt1 (c :: cs) with _ | n1
        · rw [h1] at hcore
          have := matchAlt2_ge _ _ hcore
          omega
        · rw [h1] at hcore
          rw [Option.some.injEq] at hcore
          subst hcore
          have := matchAlt1_ge _ _ h1
          omega
      have hle : rest.length ≤ ((c :: cs).drop n).length := by
        rw [← hrest]
        exact (List.dropWhile_suffix _).sublist.length_le
      rw [List.length_drop] at hle
      simp only [List.length_cons] at hle ⊢
      omega
    · simp at hm

/-- The remainder after a body match is empty or starts with a newline. -/
theorem matchBody_rest_shape (cs cap rest : List Char)
    (hm : matchBody cs = some (cap, rest)) :
    rest = [] ∨ ∃ t, rest = '\n' :: t := by
  simp only [matchBody] at hm
  split at hm
  · rename_i n hcore
    rw [Option.some.injEq, Prod.mk.injEq] at hm
    obtain ⟨-, hrest⟩ := hm
    rw [← hrest]
    exact dropWhile_ne_newline_shape (cs.drop n)
  · simp at hm

/-- The scanning search only returns a match strictly inside its input: the
text before the match is a prefix of the input, and the remainder is
shorter than the input and empty or newline-fronted. -/
theorem findMarkerAux_spec :
    ∀ (cs pre cap rest : List Char),
      findMarkerAux cs = some (pre, cap, rest) →
      (∃ u, cs = pre ++ u) ∧ rest.length < cs.length ∧
        (rest = [] ∨ ∃ t, rest = '\n' :: t) := by
  intro cs
  induction cs with
  | nil =>
    intro pre cap rest h
    simp [findMarkerAux] at h
  | cons c cs ih =>
    intro pre cap rest h
    rw [findMarkerAux] at h
    rcases hb : (if c = '\n' then matchBody cs else none) with _ | ⟨cap1, rest1⟩
    · rw [hb] at h
      rcases ha : findMarkerAux cs with _ | ⟨pre1, cap1, rest1⟩
      · rw [ha] at h
        simp at h
      · rw [ha] at h
        rw [Option.some.injEq] at h
        simp only [Prod.mk.injEq] at h
        obtain ⟨h1, h2, h3⟩ := h
        subst h1
        subst h2
        subst h3
        obtain ⟨⟨u, hu⟩, hlen, hshape⟩ := ih pre1 cap1 rest1 ha
        refine ⟨⟨u, by rw [List.cons_append, ← hu]⟩, ?_, hshape⟩
        simp only [List.length_cons]
        omega
    · rw [hb] at h
      rw [Option.some.injEq] at h
      simp only [Prod.mk.injEq] at h
      obtain ⟨h1, h2, h3⟩ := h
      subst h1
      subst h2
      subst h3
      have hmb : matchBody cs = some (cap1, rest1) := by
        by_cases hc : c = '\n'
        · rw [if_pos hc] at hb
          exact hb
        · rw [if_neg hc] at hb
          simp at hb
      have hlen := matchBody_shrink cs cap1 rest1 hmb
      have hshape := matchBody_rest_shape cs cap1 rest1 hmb
      refine ⟨⟨c :: cs, rfl⟩, ?_, hshape⟩
      simp only [List.length_cons]
      omega

/-- The leftmost-match search only returns a match strictly inside its
input (prefix, shrinking remainder, remainder empty or newline-fronted). -/
theorem findMarker_spec (cs pre cap rest : List Char)
    (h : findMarker cs = some (pre, cap, rest)) :
    (∃ u, cs = pre ++ u) ∧ rest.length < cs.length ∧
      (rest = [] ∨ ∃ t, rest = '\n' :: t) := by
  rw [findMarker] at h
  rcases hb : matchBody cs with _ | ⟨cap1, rest1⟩
  · rw [hb] at h
    exact findMarkerAux_spec cs pre cap rest h
  · rw [hb] at h
    rw [Option.some.injEq] at h
    simp only [Prod.mk.injEq] at h
    obtain ⟨h1, h2, h3⟩ := h
    subst h1
    subst h2
    subst h3
    exact ⟨⟨cs, rfl⟩, matchBody_shrink _ _ _ hb, matchBody_rest_shape _ _ _ hb⟩

/-- `String.split(pageRegex)`, reorganised: the text before the first
match, then for each match its capture paired with the slice up to the
next match (the last slice being the remainder of the document). -/
def splitMarkers (cs : List Char) : List Char × List (List Char × List Char) :=
  match h : findMarker cs with
  | none => (cs, [])
  | some (pre, cap, rest) =>
    (pre, (cap, (splitMarkers rest).1) :: (splitMarkers rest).2)
termination_by cs.length
decreasing_by
  all_goals exact (findMarker_spec cs pre cap rest h).2.1

/-- Unfolding `splitMarkers` when the regex has no match. -/
theorem splitMarkers_none (cs : List Char) (h : findMarker cs = none) :
    splitMarkers cs = (cs, []) := by
  rw [splitMarkers]
  split
  · rfl
  · rename_i pre cap rest hf
    rw [h] at hf
    simp at hf

/-- Unfolding `splitMarkers` at a leftmost match. -/
theorem splitMarkers_some (cs pre cap rest : List Char)
    (h : findMarker cs = some (pre, cap, rest)) :
    splitMarkers cs =
      (pre, (cap, (splitMarkers rest).1) :: (splitMarkers rest).2) := by
  rw [splitMarkers]
  split
  · rename_i hf
    rw [h] at hf
    simp at hf
  · rename_i pre1 cap1 rest1 hf
    rw [h] at hf
    rw [Option.some.injEq] at hf
    simp only [Prod.mk.injEq] at hf
    obtain ⟨h1, h2, h3⟩ := hf
    subst h1
    subst h2
    subst h3
    rfl

/-- The text before the first match is a prefix of the document. -/
theorem splitMarkers_fst_prefix (cs : List Char) :
    ∃ u, cs = (splitMarkers cs).1 ++ u := by
  cases hf : findMarker cs with
  | none =>
    rw [splitMarkers_none cs hf]
    exact ⟨[], (List.append_nil cs).symm⟩
  | some x =>
    obtain ⟨pre, cap, rest⟩ := x
    rw [splitMarkers_some _ _ _ _ hf]
    exact (findMarker_spec _ _ _ _ hf).1

/-- Every between-match slice is empty or starts with a newline: each match
ends at the end of a line, and the following slice resumes at that line's
terminating newline. -/
theorem splitMarkers_content_shape :
    ∀ (n : Nat) (cs : List Char), cs.length ≤ n →
      ∀ pm ∈ (splitMarkers cs).2, pm.2 = [] ∨ ∃ t, pm.2 = '\n' :: t := by
  intro n
  induction n with
  | zero =>
    intro cs hlen pm hpm
    have hnil : cs = [] := List.length_eq_zero.mp (Nat.le_zero.mp hlen)
    subst hnil
    rw [splitMarkers_none [] (by decide)] at hpm
    simp at hpm
  | succ n ih =>
    intro cs hlen pm hpm
    cases hf : findMarker cs with
    | none =>
      rw [splitMarkers_none cs hf] at hpm
      simp at hpm
    | some x =>
      obtain ⟨pre, cap, rest⟩ := x
      rw [splitMarkers_some _ _ _ _ hf] at hpm
      obtain ⟨-, hlt, hshape⟩ := findMarker_spec _ _ _ _ hf
      rcases List.mem_cons.mp hpm with hfst | htail
      · subst hfst
        obtain ⟨u, hu⟩ := splitMarkers_fst_prefix rest
        rcases hshape with hrnil | ⟨t, ht⟩
        · subst hrnil
          exact Or.inl (by rw [splitMarkers_none [] (by decide)])
        · subst ht
          cases hfst2 : (splitMarkers ('\n' :: t)).1 with
          | nil => exact Or.inl rfl
          | cons a f =>
            rw [hfst2, List.cons_append] at hu
            injection hu with ha hrest2
            exact Or.inr ⟨f, by rw [← ha]⟩
      · exact ih rest (by omega) pm htail

/-- A parsed page record: the trimmed captured header (which may span
several lines) and the raw content slice up to the next marker. -/
structure ParsedPage where
  header : String
  content : String
deriving Repr, DecidableEq

/-- The parse at lines 1466-1484: split the document on the marker regex;
with no match (`sections.length < 2`) the whole document becomes one
synthetic `Single Page` with empty global context, otherwise the text
before the first match is the trimmed global context and each capture
starts a page whose content is the slice up to the next match. -/
def parseStory (doc : String) : String × List ParsedPage :=
  let s := splitMarkers doc.toList
  match s.2 with
  | [] => ("", [{ header := "Single Page", content := doc }])
  | pm :: pms =>
    (jsTrim (String.mk s.1),
     (pm :: pms).map
       (fun q => { header := jsTrim (String.mk q.1), content := String.mk q.2 }))

/-- Helper for the claim's line-local reading of a heading marker: the line
contains `Page` (case-insensitively) followed by optional whitespace and a
digit. -/
def hasPageNum : List Char → Bool
  | [] => false
  | c :: cs =>
    (match dropCI ['p', 'a', 'g', 'e'] (c :: cs) with
     | some rest =>
       match rest.dropWhile isWsChar with
       | d :: _ => d.isDigit
       | [] => false
     | none => false) || hasPageNum cs

/-- Rendering of the claim's per-line notion of a page-header marker (the
claim's wording, not the source's regex): a heading of level one to three
containing `Page N`, or a `Page N:` label line.  The source regex,
modelled by `findMarker`, can additionally match across newlines. -/
def claimHeaderLine (l : String) : Bool :=
  let cs := l.toList
  let hn := (cs.takeWhile (fun c => c = '#')).length
  (decide (1 ≤ hn) && decide (hn ≤ 3) && hasPageNum (cs.drop hn)) ||
  (match dropCI ['p', 'a', 'g', 'e'] cs with
   | some rest =>
     let afterWs := rest.dropWhile isWsChar
     decide (afterWs.takeWhile Char.isDigit ≠ []) &&
       (match afterWs.dropWhile Char.isDigit with
        | ':' :: _ => true
        | _ => false)
   | none => false)

/-- `infixOf` decides list infixhood. -/
theorem infixOf_iff (pat l : List Char) :
    infixOf pat l = true ↔ List.IsInfix pat l := by
  induction l with
  | nil => cases pat <;> simp [infixOf, List.infix_nil]
  | cons c t ih =>
    rw [infixOf, Bool.or_eq_true, List.isPrefixOf_iff_prefix, ih,
      List.infix_cons_iff]

/-- A successful case-insensitive literal match exhibits the pattern as a
prefix of the lowered input. -/
theorem dropCI_lower (pat : List Char) :
    ∀ (cs rest : List Char), dropCI pat cs = some rest →
      List.IsPrefix pat (cs.map Char.toLower) := by
  induction pat with
  | nil =>
    intro cs rest _
    exact List.nil_prefix
  | cons p ps ih =>
    intro cs rest h
    cases cs with
    | nil => simp [dropCI] at h
    | cons c cs =>
      rw [dropCI] at h
      by_cases hc : c.toLower = p
      · rw [if_pos hc] at h
        rw [List.map_cons, ← hc]
        exact List.cons_prefix_cons.mpr ⟨rfl, ih cs rest h⟩
      · rw [if_neg hc] at h
        simp at h

/-- Infixes of a dropped suffix are infixes of the whole list. -/
theorem isInfix_of_drop {pat l : List Char} {k : Nat}
    (h : List.IsInfix pat (l.drop k)) : List.IsInfix pat l :=
  h.trans (List.drop_suffix k l).isInfix

/-- A successful first alternative exhibits `page` inside the lowered
input. -/
theorem matchAlt1_page (cs : List Char) (n : Nat)
    (hm : matchAlt1 cs = some n) :
    List.IsInfix ['p', 'a', 'g', 'e'] (cs.map Char.toLower) := by
  simp only [matchAlt1] at hm
  split at hm
  · split at hm
    · rename_i rest hd
      have hp := dropCI_lower ['p', 'a', 'g', 'e'] _ _ hd
      rw [List.map_drop, List.map_drop] at hp
      exact isInfix_of_drop (isInfix_of_drop hp.isInfix)
    · simp at hm
  · simp at hm

/-- A successful second alternative exhibits `page` inside the lowered
input. -/
theorem matchAlt2_page (cs : List Char) (n : Nat)
    (hm : matchAlt2 cs = some n) :
    List.IsInfix ['p', 'a', 'g', 'e'] (cs.map Char.toLower) := by
  simp only [matchAlt2] at hm
  split at hm
  · rename_i rest hd
    exact (dropCI_lower ['p', 'a', 'g', 'e'] _ _ hd).isInfix
  · simp at hm

/-- A successful body match exhibits `page` inside the lowered input. -/
theorem matchBody_page (cs : List Char) (x : List Char × List Char)
    (hm : matchBody cs = some x) :
    List.IsInfix ['p', 'a', 'g', 'e'] (cs.map Char.toLower) := by
  simp only [matchBody] at hm
  split at hm
  · rename_i n hcore
    rcases h1 : matchAlt1 cs with _ | n1
    · rw [h1] at hcore
      exact matchAlt2_page cs n hcore
    · exact matchAlt1_page cs n1 h1
  · simp at hm

/-- The scanning search finds nothing in a document that does not contain
`page` case-insensitively. -/
theorem findMarkerAux_no_page :
    ∀ cs : List Char,
      ¬ List.IsInfix ['p', 'a', 'g', 'e'] (cs.map Char.toLower) →
      findMarkerAux cs = none := by
  intro cs
  induction cs with
  | nil => intro _; rfl
  | cons c t ih =>
    intro h
    have hsuf : List.IsSuffix (t.map Char.toLower) ((c :: t).map Char.toLower) := by
      rw [List.map_cons]
      exact List.suffix_cons _ _
    have ht : ¬ List.IsInfix ['p', 'a', 'g', 'e'] (t.map Char.toLower) :=
      fun hi => h (hi.trans hsuf.isInfix)
    have hb : (if c = '\n' then matchBody t else none) = none := by
      by_cases hc : c = '\n'
      · rw [if_pos hc]
        cases hmb : matchBody t with
        | none => rfl
        | some x => exact absurd (matchBody_page t x hmb) ht
      · rw [if_neg hc]
    rw [findMarkerAux, hb, ih ht]

/-- The regex has no match in a document that does not contain `page`
case-insensitively. -/
theorem findMarker_no_page (cs : List Char)
    (h : infixOf ['p', 'a', 'g', 'e'] (cs.map Char.toLower) = false) :
    findMarker cs = none := by
  have hni : ¬ List.IsInfix ['p', 'a', 'g', 'e'] (cs.map Char.toLower) := by
    intro hi
    rw [← infixOf_iff, h] at hi
    exact Bool.noConfusion hi
  have hb : matchBody cs = none := by
    cases hmb : matchBody cs with
    | none => rfl
    | some x => exact absurd (matchBody_page cs x hmb) hni
  rw [findMarker, hb, findMarkerAux_no_page cs hni]

/-- C8 (amended) — Parser fallback and header capture, relative to the
source's cross-line marker semantics (JavaScript `\s` matches the newline,
so the split marker may span several lines): (1) when the marker regex has
no match in the document, parsing yields an empty global context and
exactly one synthetic `Single Page` whose content is the entire document;
(2) in particular the regex has no match in any document that nowhere
contains the word `page` case-insensitively; (3) every parsed page is the
synthetic page or has content that is empty or resumes at the newline
ending the header's final line, so the remainder of the line on which the
captured header completes never leaks into page content. -/
theorem c8_parser_amended (doc : String) :
    (findMarker doc.toList = none →
      parseStory doc = ("", [{ header := "Single Page", content := doc }])) ∧
    (infixOf ['p', 'a', 'g', 'e'] (doc.toList.map Char.toLower) = false →
      findMarker doc.toList = none) ∧
    (∀ pg ∈ (parseStory doc).2,
      pg.header = "Single Page" ∨ pg.content = "" ∨
        ∃ t, pg.content.toList = '\n' :: t) := by
  refine ⟨?_, findMarker_no_page doc.toList, ?_⟩
  · intro hf
    simp only [parseStory]
    rw [splitMarkers_none _ hf]
  · intro pg hpg
    rcases hs : (splitMarkers doc.toList).2 with _ | ⟨pm0, pms⟩
    · have hps1 : (parseStory doc).2 = [{ header := "Single Page", content := doc }] := by
        simp only [parseStory]
        rw [hs]
      rw [hps1] at hpg
      rw [List.mem_singleton] at hpg
      subst hpg
      exact Or.inl rfl
    · have hps2 : (parseStory doc).2 =
          (pm0 :: pms).map
            (fun q => { header := jsTrim (String.mk q.1),
                        content := String.mk q.2 }) := by
        simp only [parseStory]
        rw [hs]
      rw [hps2] at hpg
      rw [List.mem_map] at hpg
      obtain ⟨q, hq, rfl⟩ := hpg
      have hq2 : q ∈ (splitMarkers doc.toList).2 := by
        rw [hs]
        exact hq
      have hshape :=
        splitMarkers_content_shape doc.toList.length doc.toList le_rfl q hq2
      rcases hshape with hqnil | ⟨t, ht⟩
      · refine Or.inr (Or.inl ?_)
        show String.mk q.2 = ""
        rw [hqnil]
      · refine Or.inr (Or.inr ⟨t, ?_⟩)
        show q.2 = '\n' :: t
        exact ht

/-- Witness for `c8_parser_amended`: a concrete document that nowhere
contains `page` parses to the synthetic single page, via conjuncts (2)
and (1). -/
theorem c8_parser_amended_witness :
    parseStory "A quiet morning.\nThe hero wakes." =
      ("", [{ header := "Single Page",
              content := "A quiet morning.\nThe hero wakes." }]) :=
  (c8_parser_amended "A quiet morning.\nThe hero wakes.").1
    ((c8_parser_amended "A quiet morning.\nThe hero wakes.").2.1 (by decide))

/-- C8 counterexample: the two-line document `"##\nPage 1"` has no
page-header line under the claim's per-line reading (neither `"##"` nor
`"Page 1"` is a level 1-3 heading containing `Page N` or a `Page N:`
label), yet the source regex matches it across the newline, so parsing
splits out one page with the two-line captured header instead of the
claimed synthetic `Single Page`. -/
theorem c8_counterexample :
    (String.intercalate "\n" ["##", "Page 1"] = "##\nPage 1") ∧
    (∀ l ∈ ["##", "Page 1"], claimHeaderLine l = false) ∧
    parseStory "##\nPage 1" =
      ("", [{ header := "##\nPage 1", content := "" }]) ∧
    parseStory "##\nPage 1" ≠
      ("", [{ header := "Single Page", content := "##\nPage 1" }]) := by
  have hf : findMarker "##\nPage 1".toList =
      some ([], "##\nPage 1".toList, []) := by decide
  have hnil : findMarker ([] : List Char) = none := by decide
  have hsplit : splitMarkers "##\nPage 1".toList =
      ([], [("##\nPage 1".toList, [])]) := by
    rw [splitMarkers_some _ _ _ _ hf, splitMarkers_none _ hnil]
  have heq : parseStory "##\nPage 1" =
      ("", [{ header := "##\nPage 1", content := "" }]) := by
    simp only [parseStory]
    rw [hsplit]
    decide
  refine ⟨by decide, by decide, heq, ?_⟩
  rw [heq]
  decide

/-! ## The PageMemory ledger (`MemoryHandler`, `src/mcp-server/src/memoryHandler.ts`)

`updateMemory` manipulates the page's block of the memory file — the text
between the page's `## header` line and the next `## ` line — through string
operations on newline-separated text.  We model the block as its list of
lines; the correspondence is exact as long as reasons and paths contain no
embedded newline (which the model's line type cannot represent anyway). -/

def allWs (l : String) : Bool := l.toList.all isWsChar

/-- `trimEnd` of a single line. -/
def trimEndStr (l : String) : String :=
  String.mk (l.toList.reverse.dropWhile isWsChar).reverse

/-- `blockContent.trimEnd()` on the lines view: drop trailing all-whitespace
lines, then strip trailing whitespace from the new last line; a block that is
nothing but whitespace trims to the empty text (one empty line). -/
def trimEndBlock (ls : List String) : List String :=
  match ls.reverse.dropWhile allWs with
  | [] => [""]
  | last :: pre => (trimEndStr last :: pre).reverse

/-- `blockContent.trimEnd() + '\n' + line + '\n'` on the lines view. -/
def blockAppend (ls : List String) (line : String) : List String :=
  trimEndBlock ls ++ [line, ""]

/-- `blockContent.includes(s)` for a needle without embedded newlines:
the needle occurs within some line. -/
def blockIncludes (ls : List String) (s : String) : Bool :=
  ls.any (fun l => infixOf s.toList l.toList)

def phaseLineMarker (phase : Nat) : String := "- Phase " ++ toString phase ++ ":"

/-- The status-line test `^\s*- Phase N:.*$` (regex with the `m` flag),
applied to a single line. -/
def isStatusLine (phase : Nat) (l : String) : Bool :=
  (phaseLineMarker phase).toList.isPrefixOf (l.toList.dropWhile isWsChar)

/-- The status line written on PASS. -/
def passedLine (phase : Nat) (filePath : String) : String :=
  phaseLineMarker phase ++ " `" ++ filePath ++ "` [PASSED]"

/-- The failure line written on FAIL (with the optional failed-artifact tag). -/
def failedLine (phase : Nat) (reason : String) (failedPath : Option String) : String :=
  let base := "- Phase " ++ toString phase ++ " Attempt: FAILED. Reason: " ++ reason
  match failedPath with
  | some p => base ++ " [FILE: `" ++ p ++ "`]"
  | none => base

/-- `blockContent.replace(phaseRegex, newLine)`: replace the first matching
status line. -/
def replaceFirstStatus (phase : Nat) (newLine : String) : List String → List String
  | [] => []
  | l :: ls =>
    if isStatusLine phase l then newLine :: ls
    else l :: replaceFirstStatus phase newLine ls

inductive MemStatus where
  | passed (filePath : String)
  | failed (reason : String) (failedPath : Option String)
deriving Repr, DecidableEq

/-- One `MemoryHandler.updateMemory` call acting on the page's block
(source lines 44-68): a PASS overwrites the first status line of its phase,
or appends one if none exists; a FAIL appends its failure line unless the
exact text already occurs somewhere in the block. -/
def updateBlock (phase : Nat) (st : MemStatus) (ls : List String) : List String :=
  match st with
  | .passed fp =>
    let newLine := passedLine phase fp
    if ls.any (isStatusLine phase) then replaceFirstStatus phase newLine ls
    else blockAppend ls newLine
  | .failed reason failedPath =>
    let fl := failedLine phase reason failedPath
    if blockIncludes ls fl then ls else blockAppend ls fl

/-- The block of a page that has never been written (empty text). -/
def emptyBlock : List String := [""]

def applyOps (ops : List (Nat × MemStatus)) (b : List String) : List String :=
  ops.foldl (fun acc op => updateBlock op.1 op.2 acc) b

/-! ### `checkMemory` and `getFailures` (disk-validated reads) -/

/-- First capture of `- Phase N: \x60([^\x60]+)\x60 \[PASSED\]` within a
character list: scan for the literal marker, take the non-backtick run,
and require it to be nonempty, closed by a backtick and followed by
the literal PASSED tag. -/
def scanPassed (marker : List Char) : List Char → Option (List Char)
  | [] => none
  | c :: cs =>
    if marker.isPrefixOf (c :: cs) then
      let rest := (c :: cs).drop marker.length
      let p := rest.takeWhile (fun x => x ≠ '`')
      match rest.dropWhile (fun x => x ≠ '`') with
      | '`' :: tail =>
        if p ≠ [] ∧ (" [PASSED]".toList).isPrefixOf tail then some p
        else scanPassed marker cs
      | _ => scanPassed marker cs
    else scanPassed marker cs

/-- First PASSED-line capture across the block's lines. -/
def firstPassedCapture (marker : List Char) : List String → Option String
  | [] => none
  | l :: ls =>
    match scanPassed marker l.toList with
    | some p => some (String.mk p)
    | none => firstPassedCapture marker ls

structure CheckMemoryResult where
  phase1 : Option String := none
  phase2 : Option String := none
deriving Repr, DecidableEq

/-- `MemoryHandler.checkMemory`, given the page's block and a model of
`fs.existsSync`: a phase is reported only when the captured path exists. -/
def checkMemory (block : List String) (diskExists : String → Bool) :
    CheckMemoryResult :=
  let r1 :=
    match firstPassedCapture ("- Phase 1: `".toList) block with
    | some p => if diskExists p then some p else none
    | none => none
  let r2 :=
    match firstPassedCapture ("- Phase 2: `".toList) block with
    | some p => if diskExists p then some p else none
    | none => none
  { phase1 := r1, phase2 := r2 }

/-- Scan one line for
`- Phase \d+ Attempt: FAILED\. Reason: ` and return the text after the
marker of the first match. -/
def scanFailed : List Char → Option (List Char)
  | [] => none
  | c :: cs =>
    if ("- Phase ".toList).isPrefixOf (c :: cs) then
      let rest := (c :: cs).drop 8
      let ds := rest.takeWhile Char.isDigit
      let rest2 := rest.dropWhile Char.isDigit
      if ds ≠ [] ∧ (" Attempt: FAILED. Reason: ".toList).isPrefixOf rest2 then
        some (rest2.drop 26)
      else scanFailed cs
    else scanFailed cs

/-- Split the optional trailing `\x5bFILE: \x60path\x60\x5d` tag off the
reason text (the regex's lazy reason group makes the tag the last one). -/
def splitFileSuffix (tail : List Char) : List Char × Option (List Char) :=
  match tail.reverse with
  | ']' :: '`' :: rest =>
    let pRev := rest.takeWhile (fun c => c ≠ '`')
    (match rest.dropWhile (fun c => c ≠ '`') with
     | '`' :: rest3 =>
       if (" [FILE: ".toList.reverse).isPrefixOf rest3 ∧ pRev ≠ [] then
         ((rest3.drop 8).reverse, some pRev.reverse)
       else (tail, none)
     | _ => (tail, none))
  | _ => (tail, none)

/-- `MemoryHandler.getFailures` on the page's block: collect the (trimmed)
reasons of all failure lines and the failed-artifact paths whose file still
exists; both deduplicated (`[...new Set(xs)]`). -/
def getFailures (block : List String) (diskExists : String → Bool) :
    List String × List String :=
  let step := fun (acc : List String × List String) (l : String) =>
    match scanFailed l.toList with
    | none => acc
    | some tail =>
      let rp := splitFileSuffix tail
      let acc1 := (acc.1 ++ [jsTrim (String.mk rp.1)], acc.2)
      match rp.2 with
      | some pcs =>
        if diskExists (String.mk pcs) then (acc1.1, acc1.2 ++ [String.mk pcs])
        else acc1
      | none => acc1
  let res := block.foldl step ([], [])
  (res.1.dedup, res.2.dedup)

/-- C10 — Memory reads are disk-validated: `checkMemory` reports a phase as
PASSED only if the captured artifact path currently exists on disk (a PASSED
line pointing at a deleted file is ignored), and every failed-artifact path
returned by `getFailures` exists on disk. -/
theorem c10_disk_validated_reads (block : List String) (diskExists : String → Bool) :
    (∀ p, (checkMemory block diskExists).phase1 = some p → diskExists p = true) ∧
    (∀ p, (checkMemory block diskExists).phase2 = some p → diskExists p = true) ∧
    (∀ p ∈ (getFailures block diskExists).2, diskExists p = true) := by
  refine ⟨?_, ?_, ?_⟩
  · intro p hp
    simp only [checkMemory] at hp
    rcases h : firstPassedCapture ("- Phase 1: `".toList) block with _ | q
    · rw [h] at hp; simp at hp
    · rw [h] at hp
      by_cases hd : diskExists q = true
      · simp only [hd, if_true, Option.some.injEq] at hp
        rwa [← hp]
      · simp [hd] at hp
  · intro p hp
    simp only [checkMemory] at hp
    rcases h : firstPassedCapture ("- Phase 2: `".toList) block with _ | q
    · rw [h] at hp; simp at hp
    · rw [h] at hp
      by_cases hd : diskExists q = true
      · simp only [hd, if_true, Option.some.injEq] at hp
        rwa [← hp]
      · simp [hd] at hp
  · intro p hp
    simp only [getFailures] at hp
    rw [List.mem_dedup] at hp
    revert hp
    have : ∀ (acc : List String × List String),
        (∀ q ∈ acc.2, diskExists q = true) →
        ∀ q ∈ (block.foldl (fun acc l =>
          match scanFailed l.toList with
          | none => acc
          | some tail =>
            let rp := splitFileSuffix tail
            let acc1 := (acc.1 ++ [jsTrim (String.mk rp.1)], acc.2)
            match rp.2 with
            | some pcs =>
              if diskExists (String.mk pcs) then (acc1.1, acc1.2 ++ [String.mk pcs])
              else acc1
            | none => acc1) acc).2, diskExists q = true := by
      induction block with
      | nil => intro acc hacc q hq; exact hacc q hq
      | cons l ls ih =>
        intro acc hacc q hq
        rw [List.foldl_cons] at hq
        refine ih _ ?_ q hq
        rcases scanFailed l.toList with _ | tail
        · exact hacc
        · rcases hsplit : (splitFileSuffix tail).2 with _ | pcs
          · simpa [hsplit] using hacc
          · simp only [hsplit]
            by_cases hd : diskExists (String.mk pcs) = true
            · simp only [hd, if_true]
              intro q hq
              rcases List.mem_append.mp hq with h1 | h1
              · exact hacc q h1
              · rw [List.mem_singleton.mp h1]; exact hd
            · simp only [hd]
              simpa using hacc
    intro hp
    exact this ([], []) (by simp) p hp

/-- Witness for `c10_disk_validated_reads` at a concrete block and disk:
the captured phase-1 path is confirmed to exist on the modelled disk. -/
theorem c10_disk_validated_reads_witness :
    (fun s => s == "out/p1.png") "out/p1.png" = true :=
  (c10_disk_validated_reads ["- Phase 1: `out/p1.png` [PASSED]"]
    (fun s => s == "out/p1.png")).1 "out/p1.png" (by decide)

/-! ### Properties of the ledger (claim C7) -/

/-- A line is clean when it carries no trailing whitespace. -/
def cleanLine (l : String) : Bool :=
  match l.toList.reverse with
  | [] => true
  | c :: _ => !isWsChar c

def countStatus (p : Nat) (b : List String) : Nat :=
  (b.filter (isStatusLine p)).length

theorem infixOf_refl (l : List Char) : infixOf l l = true := by
  cases l with
  | nil => rfl
  | cons c t =>
    simp only [infixOf, Bool.or_eq_true]
    left
    simp [List.isPrefixOf_iff_prefix]

theorem strMk_toList (l : String) : String.mk l.toList = l := rfl

theorem phaseLineMarker_head (p : Nat) :
    (phaseLineMarker p).toList =
      '-' :: (" Phase ".toList ++ (toString p).toList ++ ":".toList) := by
  simp only [phaseLineMarker, String.toList, String.data_append]
  simp

theorem marker_ne_nil (p : Nat) : (phaseLineMarker p).toList ≠ [] := by
  rw [phaseLineMarker_head p]
  simp

theorem trimEndStr_prefix (l : String) : (trimEndStr l).toList <+: l.toList := by
  have h1 : l.toList.reverse.dropWhile isWsChar <:+ l.toList.reverse :=
    List.dropWhile_suffix _
  have h2 := List.reverse_prefix.mpr h1
  rw [List.reverse_reverse] at h2
  exact h2

theorem trimEndStr_of_clean (l : String) (h : cleanLine l = true) :
    trimEndStr l = l := by
  unfold cleanLine at h
  have hdw : l.toList.reverse.dropWhile isWsChar = l.toList.reverse := by
    rcases hrev : l.toList.reverse with _ | ⟨c, cs⟩
    · rfl
    · rw [hrev] at h
      simp only [Bool.not_eq_true'] at h
      exact List.dropWhile_cons_of_neg (by simp [h])
  unfold trimEndStr
  rw [hdw, List.reverse_reverse, strMk_toList]

theorem statusLine_mono (p : Nat) (u w : List Char)
    (h : (phaseLineMarker p).toList.isPrefixOf (u.dropWhile isWsChar) = true) :
    (phaseLineMarker p).toList.isPrefixOf ((u ++ w).dropWhile isWsChar) = true := by
  have hne : u.dropWhile isWsChar ≠ [] := by
    intro hnil
    rw [hnil] at h
    have := marker_ne_nil p
    rcases hm : (phaseLineMarker p).toList with _ | ⟨a, as⟩
    · exact this hm
    · rw [hm] at h
      simp at h
  rw [List.dropWhile_append]
  simp only [List.isEmpty_iff, hne, if_false]
  rw [List.isPrefixOf_iff_prefix] at h ⊢
  exact h.trans (List.prefix_append _ _)

theorem isStatusLine_of_trim (p : Nat) (l : String)
    (h : isStatusLine p (trimEndStr l) = true) : isStatusLine p l = true := by
  obtain ⟨w, hw⟩ := trimEndStr_prefix l
  unfold isStatusLine at h ⊢
  rw [← hw]
  exact statusLine_mono p _ w h

theorem isPrefixOf_append_of_length_le (m a b : List Char) (h : m.length ≤ a.length) :
    m.isPrefixOf (a ++ b) = m.isPrefixOf a := by
  cases hb : m.isPrefixOf a with
  | true =>
    rw [List.isPrefixOf_iff_prefix] at hb ⊢
    exact hb.trans (List.prefix_append _ _)
  | false =>
    cases hab : m.isPrefixOf (a ++ b) with
    | false => rfl
    | true =>
      exfalso
      rw [List.isPrefixOf_iff_prefix] at hab
      have := List.prefix_iff_eq_take.mp hab
      rw [List.take_append_of_le_length h] at this
      have : m <+: a := by
        rw [List.prefix_iff_eq_take]
        exact this
      rw [← List.isPrefixOf_iff_prefix] at this
      rw [this] at hb
      exact Bool.true_eq_false.mp hb

/-- Prefix tests against a line with a long enough whitespace-free fixed
prefix ignore the tail. -/
theorem isStatusLine_append_eq (p : Nat) (fixed : String) (tail : List Char)
    (hlen : (phaseLineMarker p).toList.length ≤ fixed.toList.length)
    (hws : fixed.toList.dropWhile isWsChar = fixed.toList) :
    (phaseLineMarker p).toList.isPrefixOf ((fixed.toList ++ tail).dropWhile isWsChar)
      = (phaseLineMarker p).toList.isPrefixOf fixed.toList := by
  rcases hfx : fixed.toList with _ | ⟨c, cs⟩
  · exfalso
    rw [hfx] at hlen
    simp only [List.length_nil, Nat.le_zero, List.length_eq_zero] at hlen
    exact marker_ne_nil p hlen
  · rw [hfx] at hws
    have hc : isWsChar c = false := by
      cases hwc : isWsChar c with
      | false => rfl
      | true =>
        exfalso
        rw [List.dropWhile_cons_of_pos hwc] at hws
        have hle := (List.dropWhile_suffix (l := cs) isWsChar).sublist.length_le
        rw [hws] at hle
        simp at hle
    rw [hfx] at hlen
    rw [List.cons_append, List.dropWhile_cons_of_neg (by simp [hc]),
      ← List.cons_append]
    exact isPrefixOf_append_of_length_le _ _ _ hlen

theorem statusLine_passedLine (p : Nat) (fp : String) :
    isStatusLine p (passedLine p fp) = true := by
  unfold isStatusLine passedLine
  have hform : (phaseLineMarker p ++ " `" ++ fp ++ "` [PASSED]").toList =
      (phaseLineMarker p).toList ++ (" `" ++ fp ++ "` [PASSED]").toList := by
    simp [String.toList, String.data_append, List.append_assoc]
  rw [hform, phaseLineMarker_head p, List.cons_append,
    List.dropWhile_cons_of_neg (by simp [isWsChar]), ← List.cons_append,
    List.isPrefixOf_iff_prefix]
  exact List.prefix_append _ _

theorem statusLine_unique (l : String) :
    ¬(isStatusLine 1 l = true ∧ isStatusLine 2 l = true) := by
  rintro ⟨h1, h2⟩
  unfold isStatusLine at h1 h2
  rw [List.isPrefixOf_iff_prefix] at h1 h2
  have e1 := List.prefix_iff_eq_take.mp h1
  have e2 := List.prefix_iff_eq_take.mp h2
  have hlen : (phaseLineMarker 1).toList.length = (phaseLineMarker 2).toList.length := by
    decide
  rw [hlen] at e1
  exact absurd (e1.trans e2.symm) (by decide)

theorem status2_of_status1 (l : String) (h : isStatusLine 1 l = true) :
    isStatusLine 2 l = false := by
  cases h2 : isStatusLine 2 l with
  | false => rfl
  | true => exact absurd ⟨h, h2⟩ (statusLine_unique l)

theorem status1_of_status2 (l : String) (h : isStatusLine 2 l = true) :
    isStatusLine 1 l = false := by
  cases h1 : isStatusLine 1 l with
  | false => rfl
  | true => exact absurd ⟨h1, h⟩ (statusLine_unique l)

theorem not_statusLine_failedLine (p q : Nat) (hp : p = 1 ∨ p = 2)
    (hq : q = 1 ∨ q = 2) (r : String) (fpo : Option String) :
    isStatusLine p (failedLine q r fpo) = false := by
  have hform : ∃ tail, (failedLine q r fpo).toList =
      ("- Phase " ++ toString q ++ " Attempt: FAILED. Reason: ").toList ++ tail := by
    unfold failedLine
    cases fpo with
    | none => exact ⟨r.toList, by simp [String.toList, String.data_append]⟩
    | some fp =>
      exact ⟨r.toList ++ (" [FILE: `" ++ fp ++ "`]").toList,
        by simp [String.toList, String.data_append, List.append_assoc]⟩
  obtain ⟨tail, htail⟩ := hform
  unfold isStatusLine
  rw [htail]
  rcases hq with rfl | rfl
  · rw [show ("- Phase " ++ toString (1 : Nat) ++ " Attempt: FAILED. Reason: ") =
        "- Phase 1 Attempt: FAILED. Reason: " from by decide]
    rcases hp with rfl | rfl
    · rw [isStatusLine_append_eq] <;> decide
    · rw [isStatusLine_append_eq] <;> decide
  · rw [show ("- Phase " ++ toString (2 : Nat) ++ " Attempt: FAILED. Reason: ") =
        "- Phase 2 Attempt: FAILED. Reason: " from by decide]
    rcases hp with rfl | rfl
    · rw [isStatusLine_append_eq] <;> decide
    · rw [isStatusLine_append_eq] <;> decide

theorem not_statusLine_passedLine (p q : Nat) (hp : p = 1 ∨ p = 2)
    (hq : q = 1 ∨ q = 2) (hne : p ≠ q) (fp : String) :
    isStatusLine p (passedLine q fp) = false := by
  have hform : (passedLine q fp).toList =
      (phaseLineMarker q ++ " `").toList ++ (fp.toList ++ ("` [PASSED]").toList) := by
    simp [passedLine, String.toList, String.data_append, List.append_assoc]
  unfold isStatusLine
  rw [hform]
  rcases hq with rfl | rfl
  · rw [show (phaseLineMarker 1 ++ " `") = "- Phase 1: `" from by decide]
    rcases hp with rfl | rfl
    · exact absurd rfl hne
    · rw [isStatusLine_append_eq] <;> decide
  · rw [show (phaseLineMarker 2 ++ " `") = "- Phase 2: `" from by decide]
    rcases hp with rfl | rfl
    · rw [isStatusLine_append_eq] <;> decide
    · exact absurd rfl hne

theorem isStatusLine_empty (p : Nat) : isStatusLine p "" = false := by
  unfold isStatusLine
  rw [phaseLineMarker_head p]
  rfl

theorem countStatus_reverse (p : Nat) (b : List String) :
    countStatus p b.reverse = countStatus p b := by
  unfold countStatus
  rw [List.filter_reverse, List.length_reverse]

theorem countStatus_append (p : Nat) (a b : List String) :
    countStatus p (a ++ b) = countStatus p a + countStatus p b := by
  unfold countStatus
  rw [List.filter_append, List.length_append]

theorem countStatus_le_of_sublist (p : Nat) (a b : List String)
    (h : List.Sublist a b) : countStatus p a ≤ countStatus p b :=
  (h.filter _).length_le

theorem countStatus_trimEndBlock_le (p : Nat) (b : List String) :
    countStatus p (trimEndBlock b) ≤ countStatus p b := by
  unfold trimEndBlock
  rcases h : b.reverse.dropWhile allWs with _ | ⟨last, pre⟩
  · rw [show countStatus p [""] = 0 from by simp [countStatus, isStatusLine_empty]]
    exact Nat.zero_le _
  · have hsub : List.Sublist (last :: pre) b.reverse := by
      rw [← h]
      exact (List.dropWhile_suffix allWs).sublist
    rw [countStatus_reverse]
    have h2 : countStatus p (trimEndStr last :: pre) ≤ countStatus p (last :: pre) := by
      unfold countStatus
      simp only [List.filter_cons]
      cases hts : isStatusLine p (trimEndStr last) with
      | false => cases isStatusLine p last <;> simp
      | true =>
        rw [isStatusLine_of_trim p last hts]
        simp
    calc countStatus p (trimEndStr last :: pre) ≤ countStatus p (last :: pre) := h2
      _ ≤ countStatus p b.reverse := countStatus_le_of_sublist p _ _ hsub
      _ = countStatus p b := countStatus_reverse p b

theorem countStatus_zero_of_any_false (p : Nat) (b : List String)
    (h : b.any (isStatusLine p) = false) : countStatus p b = 0 := by
  unfold countStatus
  rw [List.length_eq_zero, List.filter_eq_nil_iff]
  intro a ha hsa
  rw [List.any_eq_false] at h
  exact h a ha hsa

theorem mem_dropWhile_of_neg {α : Type} (q : α → Bool) :
    ∀ (xs : List α) (x : α), x ∈ xs → q x = false → x ∈ xs.dropWhile q := by
  intro xs
  induction xs with
  | nil => intro x hx; cases hx
  | cons a t ih =>
    intro x hx hq
    cases ha : q a with
    | true =>
      rw [List.dropWhile_cons_of_pos ha]
      rcases List.mem_cons.mp hx with rfl | hxt
      · rw [hq] at ha; cases ha
      · exact ih x hxt hq
    | false =>
      rw [List.dropWhile_cons_of_neg (by simp [ha])]
      exact hx

theorem mem_trimEndBlock (l : String) (b : List String) (hmem : l ∈ b)
    (hws : allWs l = false) (hclean : trimEndStr l = l) : l ∈ trimEndBlock b := by
  unfold trimEndBlock
  have hrev : l ∈ b.reverse.dropWhile allWs :=
    mem_dropWhile_of_neg allWs b.reverse l (List.mem_reverse.mpr hmem) hws
  rcases h : b.reverse.dropWhile allWs with _ | ⟨last, pre⟩
  · rw [h] at hrev; cases hrev
  · rw [h] at hrev
    rw [List.mem_reverse]
    rcases List.mem_cons.mp hrev with rfl | hp
    · exact List.mem_cons.mpr (Or.inl hclean.symm)
    · exact List.mem_cons.mpr (Or.inr hp)

theorem mem_blockAppend (l : String) (b : List String) (line : String)
    (hmem : l ∈ b) (hws : allWs l = false) (hclean : trimEndStr l = l) :
    l ∈ blockAppend b line := by
  unfold blockAppend
  exact List.mem_append.mpr (Or.inl (mem_trimEndBlock l b hmem hws hclean))

theorem mem_replaceFirstStatus (p : Nat) (n l : String)
    (hl : isStatusLine p l = false) :
    ∀ b, l ∈ b → l ∈ replaceFirstStatus p n b := by
  intro b
  induction b with
  | nil => intro h; cases h
  | cons a t ih =>
    intro h
    unfold replaceFirstStatus
    by_cases ha : isStatusLine p a = true
    · rw [if_pos ha]
      rcases List.mem_cons.mp h with rfl | ht
      · rw [hl] at ha; cases ha
      · exact List.mem_cons.mpr (Or.inr ht)
    · rw [if_neg ha]
      rcases List.mem_cons.mp h with rfl | ht
      · exact List.mem_cons.mpr (Or.inl rfl)
      · exact List.mem_cons.mpr (Or.inr (ih ht))

theorem mem_replaceFirstStatus_self (p : Nat) (n : String) :
    ∀ b, b.any (isStatusLine p) = true → n ∈ replaceFirstStatus p n b := by
  intro b
  induction b with
  | nil => intro h; simp at h
  | cons a t ih =>
    intro h
    unfold replaceFirstStatus
    by_cases ha : isStatusLine p a = true
    · rw [if_pos ha]; exact List.mem_cons_self _ _
    · rw [if_neg ha]
      refine List.mem_cons.mpr (Or.inr (ih ?_))
      rcases List.any_eq_true.mp h with ⟨x, hx, hpx⟩
      rcases List.mem_cons.mp hx with rfl | hxt
      · exact absurd hpx ha
      · exact List.any_eq_true.mpr ⟨x, hxt, hpx⟩

theorem countStatus_replaceFirst (p p' : Nat) (n : String)
    (hex : ∀ x, isStatusLine p x = true → isStatusLine p' x = false)
    (hn : isStatusLine p n = true) (hn' : isStatusLine p' n = false) :
    ∀ b, countStatus p (replaceFirstStatus p n b) = countStatus p b ∧
      countStatus p' (replaceFirstStatus p n b) = countStatus p' b := by
  intro b
  induction b with
  | nil => exact ⟨rfl, rfl⟩
  | cons a t ih =>
    unfold replaceFirstStatus
    by_cases ha : isStatusLine p a = true
    · rw [if_pos ha]
      constructor
      · unfold countStatus
        simp [List.filter_cons, hn, ha]
      · unfold countStatus
        simp [List.filter_cons, hn', hex a ha]
    · rw [if_neg ha]
      have ha' : isStatusLine p a = false := by simpa using ha
      unfold countStatus at ih ⊢
      constructor
      · simp [List.filter_cons, ha', ih.1]
      · cases hpa' : isStatusLine p' a <;> simp [List.filter_cons, hpa', ih.2]

/-- The ledger's block invariant: at most one status line for each phase. -/
def BlockInv (b : List String) : Prop :=
  countStatus 1 b ≤ 1 ∧ countStatus 2 b ≤ 1

theorem countStatus_blockAppend (p : Nat) (b : List String) (line : String)
    (hline : isStatusLine p line = false) :
    countStatus p (blockAppend b line) = countStatus p (trimEndBlock b) := by
  unfold blockAppend
  rw [countStatus_append]
  have : countStatus p [line, ""] = 0 := by
    simp [countStatus, List.filter_cons, hline, isStatusLine_empty]
  rw [this, Nat.add_zero]

theorem updateBlock_inv (q : Nat) (st : MemStatus) (b : List String)
    (hq : q = 1 ∨ q = 2) (h : BlockInv b) : BlockInv (updateBlock q st b) := by
  cases st with
  | failed r fpo =>
    simp only [updateBlock]
    by_cases hinc : blockIncludes b (failedLine q r fpo) = true
    · rw [if_pos hinc]
      exact h
    · rw [if_neg hinc]
      constructor
      · rw [countStatus_blockAppend 1 b _
          (not_statusLine_failedLine 1 q (Or.inl rfl) hq r fpo)]
        exact le_trans (countStatus_trimEndBlock_le 1 b) h.1
      · rw [countStatus_blockAppend 2 b _
          (not_statusLine_failedLine 2 q (Or.inr rfl) hq r fpo)]
        exact le_trans (countStatus_trimEndBlock_le 2 b) h.2
  | passed fp =>
    simp only [updateBlock]
    by_cases hany : b.any (isStatusLine q) = true
    · rw [if_pos hany]
      rcases hq with rfl | rfl
      · have hc := countStatus_replaceFirst 1 2 (passedLine 1 fp)
          (fun x hx => status2_of_status1 x hx)
          (statusLine_passedLine 1 fp)
          (not_statusLine_passedLine 2 1 (Or.inr rfl) (Or.inl rfl) (by decide) fp) b
        exact ⟨hc.1 ▸ h.1, hc.2 ▸ h.2⟩
      · have hc := countStatus_replaceFirst 2 1 (passedLine 2 fp)
          (fun x hx => status1_of_status2 x hx)
          (statusLine_passedLine 2 fp)
          (not_statusLine_passedLine 1 2 (Or.inl rfl) (Or.inr rfl) (by decide) fp) b
        exact ⟨hc.2 ▸ h.1, hc.1 ▸ h.2⟩
    · rw [if_neg hany]
      have hzero : countStatus q b = 0 :=
        countStatus_zero_of_any_false q b (by simpa using hany)
      have htrim : countStatus q (trimEndBlock b) = 0 :=
        Nat.le_zero.mp (hzero ▸ countStatus_trimEndBlock_le q b)
      rcases hq with rfl | rfl
      · constructor
        · unfold blockAppend
          rw [countStatus_append, htrim]
          simp [countStatus, List.filter_cons, statusLine_passedLine 1 fp,
            isStatusLine_empty]
        · rw [countStatus_blockAppend 2 b _
            (not_statusLine_passedLine 2 1 (Or.inr rfl) (Or.inl rfl) (by decide) fp)]
          exact le_trans (countStatus_trimEndBlock_le 2 b) h.2
      · constructor
        · rw [countStatus_blockAppend 1 b _
            (not_statusLine_passedLine 1 2 (Or.inl rfl) (Or.inr rfl) (by decide) fp)]
          exact le_trans (countStatus_trimEndBlock_le 1 b) h.1
        · unfold blockAppend
          rw [countStatus_append, htrim]
          simp [countStatus, List.filter_cons, statusLine_passedLine 2 fp,
            isStatusLine_empty]

theorem applyOps_inv_aux : ∀ (ops : List (Nat × MemStatus)) (b : List String),
    (∀ op ∈ ops, op.1 = 1 ∨ op.1 = 2) → BlockInv b → BlockInv (applyOps ops b) := by
  intro ops
  induction ops with
  | nil => intro b _ hb; exact hb
  | cons op t ih =>
    intro b hops hb
    unfold applyOps
    rw [List.foldl_cons]
    exact ih (updateBlock op.1 op.2 b)
      (fun o ho => hops o (List.mem_cons_of_mem _ ho))
      (updateBlock_inv op.1 op.2 b (hops op (List.mem_cons_self _ _)) hb)

theorem emptyBlock_inv : BlockInv emptyBlock := by
  constructor <;> simp [countStatus, emptyBlock, List.filter_cons, isStatusLine_empty]

theorem blockIncludes_of_mem (b : List String) (s : String) (h : s ∈ b) :
    blockIncludes b s = true := by
  unfold blockIncludes
  exact List.any_eq_true.mpr ⟨s, h, infixOf_refl _⟩

theorem updateBlock_failed_of_mem (q : Nat) (r : String) (fpo : Option String)
    (b : List String) (h : failedLine q r fpo ∈ b) :
    updateBlock q (.failed r fpo) b = b := by
  simp only [updateBlock]
  rw [if_pos (blockIncludes_of_mem b _ h)]

theorem updateBlock_failed_idem (q : Nat) (r : String) (fpo : Option String)
    (b : List String) :
    updateBlock q (.failed r fpo) (updateBlock q (.failed r fpo) b) =
      updateBlock q (.failed r fpo) b := by
  by_cases hinc : blockIncludes b (failedLine q r fpo) = true
  · have hb : updateBlock q (.failed r fpo) b = b := by
      simp only [updateBlock]
      rw [if_pos hinc]
    rw [hb, hb]
  · have hb : updateBlock q (.failed r fpo) b = blockAppend b (failedLine q r fpo) := by
      simp only [updateBlock]
      rw [if_neg hinc]
    rw [hb]
    apply updateBlock_failed_of_mem
    unfold blockAppend
    exact List.mem_append.mpr (Or.inr (List.mem_cons_self _ _))

theorem updateBlock_preserves (q : Nat) (st : MemStatus) (b : List String)
    (l : String) (hq : q = 1 ∨ q = 2) (hmem : l ∈ b) (hws : allWs l = false)
    (hclean : trimEndStr l = l) (h1 : isStatusLine 1 l = false)
    (h2 : isStatusLine 2 l = false) : l ∈ updateBlock q st b := by
  have hql : isStatusLine q l = false := by
    rcases hq with rfl | rfl
    · exact h1
    · exact h2
  cases st with
  | passed fp =>
    simp only [updateBlock]
    by_cases hany : b.any (isStatusLine q) = true
    · rw [if_pos hany]
      exact mem_replaceFirstStatus q _ l hql b hmem
    · rw [if_neg hany]
      exact mem_blockAppend l b _ hmem hws hclean
  | failed r fpo =>
    simp only [updateBlock]
    by_cases hinc : blockIncludes b (failedLine q r fpo) = true
    · rw [if_pos hinc]
      exact hmem
    · rw [if_neg hinc]
      exact mem_blockAppend l b _ hmem hws hclean

/-- C7 — corrected ledger invariant.  Status lines behave as claimed: starting
from an empty block, the block never holds two status lines for the same
phase, and a PASSED update puts its status line into the block.  The failure
log is deduplicated by exact text: a FAILED update whose exact line already
occurs as a line of the block leaves the block unchanged, and FAILED updates
are idempotent.  Failure lines, however, are preserved verbatim by later
updates only when they carry no trailing whitespace (appending trims the
block's last line; see the counterexample); a non-status line without
trailing whitespace is never removed or modified. -/
theorem c7_ledger_amended :
    (∀ ops : List (Nat × MemStatus), (∀ op ∈ ops, op.1 = 1 ∨ op.1 = 2) →
      countStatus 1 (applyOps ops emptyBlock) ≤ 1 ∧
      countStatus 2 (applyOps ops emptyBlock) ≤ 1) ∧
    (∀ (b : List String) (p : Nat) (fp : String),
      passedLine p fp ∈ updateBlock p (.passed fp) b) ∧
    (∀ (b : List String) (q : Nat) (r : String) (fpo : Option String),
      failedLine q r fpo ∈ b → updateBlock q (.failed r fpo) b = b) ∧
    (∀ (b : List String) (q : Nat) (r : String) (fpo : Option String),
      updateBlock q (.failed r fpo) (updateBlock q (.failed r fpo) b) =
        updateBlock q (.failed r fpo) b) ∧
    (∀ (b : List String) (q : Nat) (st : MemStatus) (l : String),
      (q = 1 ∨ q = 2) → l ∈ b → allWs l = false → trimEndStr l = l →
      isStatusLine 1 l = false → isStatusLine 2 l = false →
      l ∈ updateBlock q st b) := by
  refine ⟨?_, ?_, ?_, ?_, ?_⟩
  · intro ops hops
    exact applyOps_inv_aux ops emptyBlock hops emptyBlock_inv
  · intro b p fp
    simp only [updateBlock]
    by_cases hany : b.any (isStatusLine p) = true
    · rw [if_pos hany]
      exact mem_replaceFirstStatus_self p _ b hany
    · rw [if_neg hany]
      unfold blockAppend
      exact List.mem_append.mpr (Or.inr (List.mem_cons_self _ _))
  · exact fun b q r fpo h => updateBlock_failed_of_mem q r fpo b h
  · exact fun b q r fpo => updateBlock_failed_idem q r fpo b
  · exact fun b q st l hq hm hws hc h1 h2 =>
      updateBlock_preserves q st b l hq hm hws hc h1 h2

/-- Witness for `c7_ledger_amended` at concrete inputs: one PASS then a
duplicate FAIL pair on phase 1 leaves one status line, and the duplicate
FAIL is collapsed. -/
theorem c7_ledger_amended_witness :
    countStatus 1 (applyOps [(1, MemStatus.passed "a.png"),
      (1, MemStatus.failed "bad" none), (1, MemStatus.failed "bad" none)]
      emptyBlock) ≤ 1 :=
  (c7_ledger_amended.1 [(1, MemStatus.passed "a.png"),
    (1, MemStatus.failed "bad" none), (1, MemStatus.failed "bad" none)]
    (by decide)).1

/-- C7 — counterexample to the claim as stated: the failure line recorded for
reason `"bad "` (with a trailing space) is present after the first FAILED
update, but a later FAILED update for a different reason trims the trailing
whitespace (`blockContent.trimEnd()`), modifying the existing failure line —
so failure lines are not always preserved character-for-character, and an
identical reason recorded again afterwards is appended a second time. -/
theorem c7_counterexample :
    ("- Phase 1 Attempt: FAILED. Reason: bad " ∈
      updateBlock 1 (.failed "bad " none) emptyBlock) ∧
    ("- Phase 1 Attempt: FAILED. Reason: bad " ∉
      updateBlock 1 (.failed "x" none)
        (updateBlock 1 (.failed "bad " none) emptyBlock)) ∧
    ("- Phase 1 Attempt: FAILED. Reason: bad " ∈
      updateBlock 1 (.failed "bad " none)
        (updateBlock 1 (.failed "x" none)
          (updateBlock 1 (.failed "bad " none) emptyBlock))) ∧
    ("- Phase 1 Attempt: FAILED. Reason: bad" ∈
      updateBlock 1 (.failed "bad " none)
        (updateBlock 1 (.failed "x" none)
          (updateBlock 1 (.failed "bad " none) emptyBlock))) := by
  decide

/-! ## The per-page generation loop (`generateMangaPage`, source lines 2480-3136)

The loop is embedded with the external services modelled as per-attempt
oracles: each attempt's generation outcome, phase-1 review verdict, phase-2
(`addTextToMangaPage`) result and final review verdict are inputs.  The
model records the externally visible actions as a trace of events: phase-1
image-generation calls and phase-2 lettering calls (with the artifact and
prompt they receive). -/

inductive GenOutcome where
  | apiError (errMessage : String) (respStatus : Option Nat)
  | noImage
  | image (path : String)
deriving Repr, DecidableEq

inductive Verdict where
  | pass
  | fail (reason : String)
deriving Repr, DecidableEq

/-- The oracle for one attempt of the retry loop. -/
structure AttemptEnv where
  gen : GenOutcome := .noImage
  phase1Review : Verdict := .pass
  phase2Result : Option String := none
  finalReview : Verdict := .pass
deriving Repr, DecidableEq

/-- What `checkMemory` reported for a page at the start of its processing. -/
structure PageMem where
  phase1 : Option String := none
  phase1Prompt : Option String := none
  phase2 : Option String := none
deriving Repr, DecidableEq

/-- The run options relevant to the page loop. -/
structure RunRequest where
  twoPhase : Bool := false
  retryCount : Option Nat := none
  page : Option String := none
deriving Repr, DecidableEq

/-- A page together with its environment: memory entry, the latest matching
file found on disk, the built base prompt, and the attempt oracles. -/
structure PageCtx where
  mem : PageMem := {}
  latestFile : Option String := none
  builtPrompt : String := ""
  envs : List AttemptEnv := []
deriving Repr, DecidableEq

inductive PipeEvent where
  | genCall
  | phase2Call (artPath : String) (prompt : String)
deriving Repr, DecidableEq

def isGenCall : PipeEvent → Bool
  | .genCall => true
  | _ => false

def genCallCount (evs : List PipeEvent) : Nat := (evs.filter isGenCall).length

/-- `handleApiError` (source lines 402-446): map an error to a friendly
message; authentication and quota errors are only *classified into
messages* here, nothing else. -/
def handleApiError (errMessage : String) (respStatus : Option Nat) : String :=
  if strContains errMessage "api key not valid" then
    "Authentication failed: The provided API key is invalid. Please check your NANOBANANA_GEMINI_API_KEY environment variable."
  else if strContains errMessage "permission denied" then
    "Authentication failed: The provided API key does not have the necessary permissions for the Gemini API. Please check your Google Cloud project settings."
  else if strContains errMessage "quota exceeded" then
    "API quota exceeded. Please check your usage and limits in the Google Cloud console."
  else
    match respStatus with
    | some 400 => "The request was malformed. This may be due to an issue with the prompt. Please check for safety violations or unsupported content."
    | some 403 => "Authentication failed. Please ensure your API key (e.g., NANOBANANA_GEMINI_API_KEY) is valid and has the necessary permissions."
    | some 500 => "The image generation service encountered a temporary internal error. Please try again later."
    | some s => "API request failed with status " ++ toString s ++ ". Please check your connection and API key."
    | none => "An unexpected error occurred: " ++ errMessage

/-- Outcome of one attempt iteration. -/
inductive StepOut where
  | nextAttempt (newArt : Option String) (errMsg : Option String)
  | succeed (finalPath : String)
  | abort (reason : String)
deriving Repr, DecidableEq

/-- The `if (imageSaved && fullPath)` body: optional phase-1 review (two-phase
only), phase-2 lettering call, final review, and the per-verdict cleanup and
early-return decisions (source lines 2880-3111). -/
def afterSave (req : RunRequest) (builtPrompt : String)
    (phase1Prompt : Option String) (fullPath : String) (e : AttemptEnv)
    (isLast : Bool) : StepOut × List PipeEvent :=
  if req.twoPhase then
    match e.phase1Review with
    | .fail reason =>
      if isLast then (.abort reason, []) else (.nextAttempt none none, [])
    | .pass =>
      let p2prompt := jsOrStr phase1Prompt builtPrompt
      let finalPath :=
        match e.phase2Result with
        | some q => q
        | none => fullPath
      let evs := [PipeEvent.phase2Call fullPath p2prompt]
      match e.finalReview with
      | .pass => (.succeed finalPath, evs)
      | .fail reason =>
        if isLast then (.abort reason, evs)
        else (.nextAttempt (some fullPath) none, evs)
  else
    match e.finalReview with
    | .pass => (.succeed fullPath, [])
    | .fail reason =>
      if isLast then (.abort reason, []) else (.nextAttempt none none, [])

/-- One iteration of the retry loop: reuse the existing phase-1 art if
present (no generation call), otherwise invoke generation and handle its
outcome (source lines 2800-2878). -/
def stepAttempt (req : RunRequest) (builtPrompt : String)
    (phase1Prompt : Option String) (existingArt : Option String)
    (e : AttemptEnv) (isLast : Bool) : StepOut × List PipeEvent :=
  match existingArt with
  | some art => afterSave req builtPrompt phase1Prompt art e isLast
  | none =>
    match e.gen with
    | .apiError msg st =>
      (.nextAttempt none (some (handleApiError msg st)), [.genCall])
    | .noImage => (.nextAttempt none none, [.genCall])
    | .image p =>
      let r := afterSave req builtPrompt phase1Prompt p e isLast
      (r.1, .genCall :: r.2)

inductive AttemptResult where
  | success (finalPath : String)
  | abortRun (reason : String)
  | exhausted (errMsg : Option String)
deriving Repr, DecidableEq

/-- The retry loop `for (attempt = 1; attempt <= maxRetries; attempt++)`:
a review failure on the last attempt returns from the whole run, while a
generation failure on the last attempt merely ends the loop (the page is
abandoned and the next page is processed). -/
def attemptLoop (req : RunRequest) (builtPrompt : String)
    (phase1Prompt : Option String) :
    Option String → Nat → List AttemptEnv → AttemptResult × List PipeEvent
  | _, 0, _ => (.exhausted none, [])
  | _, _ + 1, [] => (.exhausted none, [])
  | art, r + 1, e :: rest =>
    let so := stepAttempt req builtPrompt phase1Prompt art e (r == 0)
    match so.1 with
    | .succeed f => (.success f, so.2)
    | .abort m => (.abortRun m, so.2)
    | .nextAttempt newArt errMsg =>
      match r with
      | 0 => (.exhausted errMsg, so.2)
      | r2 + 1 =>
        let rec2 := attemptLoop req builtPrompt phase1Prompt newArt (r2 + 1) rest
        (rec2.1, so.2 ++ rec2.2)

/-- Result of processing one page of the loop. -/
inductive PageStep where
  | skipped (artifact : String)
  | completed (artifact : String)
  | abortRun (reason : String)
  | exhausted (errMsg : Option String)
deriving Repr, DecidableEq

/-- The phase-1 artifact taken from memory
(`if (request.twoPhase && memory.phase1)`). -/
def resumeArt (req : RunRequest) (pc : PageCtx) : Option String :=
  if req.twoPhase then pc.mem.phase1 else none

/-- The stored phase-1 prompt, available exactly when the memory resume
fires. -/
def resumePrompt (req : RunRequest) (pc : PageCtx) : Option String :=
  if req.twoPhase && pc.mem.phase1.isSome then pc.mem.phase1Prompt else none

/-- `latestFile` is looked up only when no memory resume happened. -/
def latestOf (req : RunRequest) (pc : PageCtx) : Option String :=
  if (resumeArt req pc).isSome then none else pc.latestFile

/-- The memory phase-2 skip condition (`!request.page && memory.phase2`). -/
def memSkip (req : RunRequest) (pc : PageCtx) : Bool :=
  decide (req.page = none) && pc.mem.phase2.isSome

/-- The on-disk final-file skip condition
(`!request.page && latestFile && latestFile.includes('_final')`). -/
def diskFinalSkip (req : RunRequest) (pc : PageCtx) : Bool :=
  decide (req.page = none) &&
    ((latestOf req pc).map (fun lf => strContains lf "_final")).getD false

/-- The artifact entering the retry loop: the memory resume, or the on-disk
`_phase_1` fallback resume. -/
def loopArt (req : RunRequest) (pc : PageCtx) : Option String :=
  if (resumeArt req pc).isSome then resumeArt req pc
  else if req.twoPhase && decide (req.page = none) &&
      ((latestOf req pc).map (fun lf => strContains lf "_phase_1")).getD false then
    latestOf req pc
  else none

/-- One iteration of the page loop (source lines 2480-3120): the memory
phase-2 skip, the phase-1 memory resume, the on-disk `_final` skip, the
on-disk `_phase_1` resume, then the retry loop. -/
def processPage (req : RunRequest) (pc : PageCtx) : PageStep × List PipeEvent :=
  if memSkip req pc then
    (.skipped (pc.mem.phase2.getD ""), [])
  else if diskFinalSkip req pc then
    (.skipped ((latestOf req pc).getD ""), [])
  else
    match attemptLoop req pc.builtPrompt (resumePrompt req pc) (loopArt req pc)
        (jsOrNat req.retryCount 3) pc.envs with
    | (.success f, evs) => (.completed f, evs)
    | (.abortRun m, evs) => (.abortRun m, evs)
    | (.exhausted em, evs) => (.exhausted em, evs)

/-- The record returned by `generateMangaPage` (fields relevant to the
claims). -/
structure RunOutcome where
  success : Bool
  generatedFiles : List String
  error : Option String := none
deriving Repr, DecidableEq

/-- The page loop with its terminal returns: an aborting page returns the
partial `generatedFiles` immediately; an exhausted page records the first
error and processing continues; at the end success is reported iff any file
was produced. -/
def runAux (req : RunRequest) :
    List PageCtx → Option String → List String → Option String →
      RunOutcome × List PipeEvent
  | [], _prev, files, firstError =>
    if files.length > 0 then
      ({ success := true, generatedFiles := files }, [])
    else
      ({ success := false, generatedFiles := [],
         error := some (firstError.getD "No images generated") }, [])
  | pc :: rest, prev, files, firstError =>
    match processPage req pc with
    | (.skipped f, evs) =>
      let r := runAux req rest (some f) (files ++ [f]) firstError
      (r.1, evs ++ r.2)
    | (.completed f, evs) =>
      let r := runAux req rest (some f) (files ++ [f]) firstError
      (r.1, evs ++ r.2)
    | (.abortRun m, evs) =>
      ({ success := false, generatedFiles := files, error := some m }, evs)
    | (.exhausted em, evs) =>
      let fe2 := match firstError with | some x => some x | none => em
      let r := runAux req rest prev files fe2
      (r.1, evs ++ r.2)

/-! ### Loop lemmas for claims C2-C5 -/

theorem jsOrNat_pos (o : Option Nat) (d : Nat) (hd : 0 < d) : 0 < jsOrNat o d := by
  unfold jsOrNat
  cases o with
  | none => exact hd
  | some n =>
    by_cases hn : n = 0
    · simp [hn, hd]
    · simp [hn]
      exact Nat.pos_of_ne_zero hn

theorem afterSave_no_genCall (req : RunRequest) (bp : String) (pp : Option String)
    (fp : String) (e : AttemptEnv) (il : Bool) :
    genCallCount (afterSave req bp pp fp e il).2 = 0 := by
  unfold afterSave
  cases req.twoPhase <;> cases e.phase1Review <;> cases e.finalReview <;>
    cases il <;> simp [genCallCount, isGenCall]

theorem stepAttempt_genCall_le (req : RunRequest) (bp : String) (pp : Option String)
    (art : Option String) (e : AttemptEnv) (il : Bool) :
    genCallCount (stepAttempt req bp pp art e il).2 ≤ 1 := by
  unfold stepAttempt
  cases art with
  | some a =>
    rw [afterSave_no_genCall]
    exact Nat.zero_le 1
  | none =>
    cases e.gen with
    | apiError m st => simp [genCallCount, isGenCall]
    | noImage => simp [genCallCount, isGenCall]
    | image p =>
      simp only [genCallCount, List.filter_cons, isGenCall, if_pos, List.length_cons]
      have := afterSave_no_genCall req bp pp p e il
      unfold genCallCount at this
      omega

theorem genCallCount_append (a b : List PipeEvent) :
    genCallCount (a ++ b) = genCallCount a + genCallCount b := by
  unfold genCallCount
  rw [List.filter_append, List.length_append]

theorem attemptLoop_genCall_le (req : RunRequest) (bp : String)
    (pp : Option String) :
    ∀ (n : Nat) (art : Option String) (envs : List AttemptEnv),
      genCallCount (attemptLoop req bp pp art n envs).2 ≤ n := by
  intro n
  induction n with
  | zero =>
    intro art envs
    simp [attemptLoop, genCallCount]
  | succ n ih =>
    intro art envs
    cases envs with
    | nil => simp [attemptLoop, genCallCount]
    | cons e rest =>
      simp only [attemptLoop]
      have hstep := stepAttempt_genCall_le req bp pp art e (n == 0)
      rcases hout : (stepAttempt req bp pp art e (n == 0)).1 with ⟨newArt, errMsg⟩ | f | m
      · cases n with
        | zero =>
          show genCallCount (stepAttempt req bp pp art e (0 == 0)).2 ≤ 0 + 1
          exact le_trans hstep (by omega)
        | succ n2 =>
          show genCallCount ((stepAttempt req bp pp art e (n2 + 1 == 0)).2 ++
            (attemptLoop req bp pp newArt (n2 + 1) rest).2) ≤ n2 + 1 + 1
          rw [genCallCount_append]
          have h2 := ih newArt rest
          omega
      · show genCallCount (stepAttempt req bp pp art e (n == 0)).2 ≤ n + 1
        exact le_trans hstep (by omega)
      · show genCallCount (stepAttempt req bp pp art e (n == 0)).2 ≤ n + 1
        exact le_trans hstep (by omega)

/-- The event trace of `processPage` is either empty (a skip) or exactly the
trace of its retry loop. -/
theorem processPage_events (req : RunRequest) (pc : PageCtx) :
    (processPage req pc).2 = [] ∨
    (processPage req pc).2 =
      (attemptLoop req pc.builtPrompt (resumePrompt req pc) (loopArt req pc)
        (jsOrNat req.retryCount 3) pc.envs).2 := by
  unfold processPage
  by_cases h1 : memSkip req pc = true
  · rw [if_pos h1]
    exact Or.inl rfl
  · rw [if_neg h1]
    by_cases h2 : diskFinalSkip req pc = true
    · rw [if_pos h2]
      exact Or.inl rfl
    · rw [if_neg h2]
      rcases hres : attemptLoop req pc.builtPrompt (resumePrompt req pc)
          (loopArt req pc) (jsOrNat req.retryCount 3) pc.envs with ⟨out, evs⟩
      cases out <;> exact Or.inr rfl

def stepOfResult : AttemptResult → PageStep
  | .success f => .completed f
  | .abortRun m => .abortRun m
  | .exhausted em => .exhausted em

theorem processPage_eq_loop (req : RunRequest) (pc : PageCtx)
    (h1 : memSkip req pc = false) (h2 : diskFinalSkip req pc = false) :
    processPage req pc =
      (stepOfResult (attemptLoop req pc.builtPrompt (resumePrompt req pc)
          (loopArt req pc) (jsOrNat req.retryCount 3) pc.envs).1,
       (attemptLoop req pc.builtPrompt (resumePrompt req pc)
          (loopArt req pc) (jsOrNat req.retryCount 3) pc.envs).2) := by
  unfold processPage
  rw [if_neg (by simp [h1]), if_neg (by simp [h2])]
  rcases hres : attemptLoop req pc.builtPrompt (resumePrompt req pc)
      (loopArt req pc) (jsOrNat req.retryCount 3) pc.envs with ⟨out, evs⟩
  cases out <;> rfl

theorem memSkip_of_phase2_none (req : RunRequest) (pc : PageCtx)
    (h : pc.mem.phase2 = none) : memSkip req pc = false := by
  simp [memSkip, h]

theorem latestOf_of_none (req : RunRequest) (pc : PageCtx)
    (h : pc.latestFile = none) : latestOf req pc = none := by
  unfold latestOf
  rw [h]
  exact ite_self none

theorem diskFinalSkip_of_latest_none (req : RunRequest) (pc : PageCtx)
    (h : pc.latestFile = none) : diskFinalSkip req pc = false := by
  simp [diskFinalSkip, latestOf_of_none req pc h]

theorem loopArt_single_phase (req : RunRequest) (pc : PageCtx)
    (h : req.twoPhase = false) : loopArt req pc = none := by
  simp [loopArt, resumeArt, h]

theorem resumePrompt_single_phase (req : RunRequest) (pc : PageCtx)
    (h : req.twoPhase = false) : resumePrompt req pc = none := by
  simp [resumePrompt, h]

/-- The retry loop of a single-phase page whose every attempt yields an
artifact that then fails its review: the run aborts on the last attempt. -/
theorem attemptLoop_reviewfail (req : RunRequest) (bp : String)
    (pp : Option String) (hreq : req.twoPhase = false) :
    ∀ (n : Nat) (envs : List AttemptEnv), envs.length = n → 0 < n →
      (∀ e ∈ envs, (∃ p, e.gen = .image p) ∧ ∃ r, e.finalReview = .fail r) →
      ∃ m evs, attemptLoop req bp pp none n envs = (.abortRun m, evs) := by
  intro n
  induction n with
  | zero =>
    intro envs _ h0
    exact absurd h0 (lt_irrefl 0)
  | succ n ih =>
    intro envs hlen _ hsh
    cases envs with
    | nil => simp at hlen
    | cons e rest =>
      obtain ⟨⟨p, hgen⟩, ⟨r, hrev⟩⟩ := hsh e (List.mem_cons_self e rest)
      have hafter : ∀ il : Bool, afterSave req bp pp p e il =
          (if il = true then StepOut.abort r else StepOut.nextAttempt none none, []) := by
        intro il
        unfold afterSave
        rw [hreq, hrev]
        cases il <;> simp
      have hstep : ∀ il : Bool, stepAttempt req bp pp none e il =
          (if il = true then StepOut.abort r else StepOut.nextAttempt none none,
           [.genCall]) := by
        intro il
        unfold stepAttempt
        rw [hgen]
        show ((afterSave req bp pp p e il).1,
            PipeEvent.genCall :: (afterSave req bp pp p e il).2) =
          (if il = true then StepOut.abort r else StepOut.nextAttempt none none,
           [PipeEvent.genCall])
        rw [hafter il]
      cases n with
      | zero =>
        refine ⟨r, [.genCall], ?_⟩
        have hstep2 : stepAttempt req bp pp none e true =
            (StepOut.abort r, [.genCall]) := by
          rw [hstep true]
          rfl
        simp [attemptLoop, hstep2]
      | succ n2 =>
        have hlen2 : rest.length = n2 + 1 := by simpa using hlen
        obtain ⟨m, evs, hrec⟩ := ih rest hlen2 (Nat.succ_pos n2)
          (fun e2 he2 => hsh e2 (List.mem_cons_of_mem e he2))
        refine ⟨m, .genCall :: evs, ?_⟩
        have hstep2 : stepAttempt req bp pp none e ((n2 + 1 : Nat) == 0) =
            (StepOut.nextAttempt none none, [.genCall]) := by
          rw [hstep]
          rfl
        simp only [attemptLoop, hstep2]
        rw [hrec]
        simp

/-- C2 — corrected retry exhaustion.  At most `retryCount` (default 3, with
`0` falling back to 3) generation calls are made per page.  When every
attempt of a page produces an artifact that fails its review, the run
returns immediately after the last attempt with `success = false` and
`generatedFiles` exactly the artifacts accumulated for the pages before it —
no later page is processed.  (Retry exhaustion through generation-call
failures does NOT abort the run; see the counterexample.) -/
theorem c2_retry_exhaustion_amended :
    (∀ (req : RunRequest) (bp : String) (pp : Option String) (art : Option String)
       (n : Nat) (envs : List AttemptEnv),
       genCallCount (attemptLoop req bp pp art n envs).2 ≤ n) ∧
    (∀ (req : RunRequest) (pc : PageCtx),
       genCallCount (processPage req pc).2 ≤ jsOrNat req.retryCount 3) ∧
    (∀ (req : RunRequest) (pc : PageCtx), req.twoPhase = false →
       pc.mem.phase2 = none → pc.latestFile = none →
       pc.envs.length = jsOrNat req.retryCount 3 →
       (∀ e ∈ pc.envs, (∃ p, e.gen = .image p) ∧ ∃ r, e.finalReview = .fail r) →
       ∃ m evs, processPage req pc = (.abortRun m, evs) ∧
         ∀ (rest : List PageCtx) (prev : Option String) (files : List String)
           (fe : Option String),
           runAux req (pc :: rest) prev files fe =
             ({ success := false, generatedFiles := files, error := some m }, evs)) := by
  refine ⟨?_, ?_, ?_⟩
  · intro req bp pp art n envs
    exact attemptLoop_genCall_le req bp pp n art envs
  · intro req pc
    rcases processPage_events req pc with h | h
    · rw [h]
      exact Nat.zero_le _
    · rw [h]
      exact attemptLoop_genCall_le req pc.builtPrompt _ _ _ pc.envs
  · intro req pc hreq hmem hlatest hlen hsh
    obtain ⟨m, evs, hloop⟩ := attemptLoop_reviewfail req pc.builtPrompt
      (resumePrompt req pc) hreq (jsOrNat req.retryCount 3) pc.envs hlen
      (jsOrNat_pos req.retryCount 3 (by omega)) hsh
    have hpp : processPage req pc = (.abortRun m, evs) := by
      rw [processPage_eq_loop req pc (memSkip_of_phase2_none req pc hmem)
        (diskFinalSkip_of_latest_none req pc hlatest),
        loopArt_single_phase req pc hreq, hloop]
      rfl
    refine ⟨m, evs, hpp, ?_⟩
    intro rest prev files fe
    simp only [runAux, hpp]

/-- Witness for `c2_retry_exhaustion_amended`: a page whose three attempts
all fail review makes the run return immediately with `success = false` and
exactly the files accumulated before it. -/
theorem c2_retry_exhaustion_amended_witness :
    ∃ m evs,
      processPage ({} : RunRequest)
        ({ envs := [{ gen := .image "a.png", finalReview := .fail "r1" },
                    { gen := .image "b.png", finalReview := .fail "r2" },
                    { gen := .image "c.png", finalReview := .fail "r3" }] } : PageCtx) =
        (.abortRun m, evs) ∧
      ∀ (rest : List PageCtx) (prev : Option String) (files : List String)
        (fe : Option String),
        runAux ({} : RunRequest)
          (({ envs := [{ gen := .image "a.png", finalReview := .fail "r1" },
                       { gen := .image "b.png", finalReview := .fail "r2" },
                       { gen := .image "c.png", finalReview := .fail "r3" }] } : PageCtx)
            :: rest) prev files fe =
          ({ success := false, generatedFiles := files, error := some m }, evs) :=
  c2_retry_exhaustion_amended.2.2 ({} : RunRequest)
    ({ envs := [{ gen := .image "a.png", finalReview := .fail "r1" },
                { gen := .image "b.png", finalReview := .fail "r2" },
                { gen := .image "c.png", finalReview := .fail "r3" }] } : PageCtx)
    rfl rfl rfl (by decide)
    (by
      intro e he
      simp only [List.mem_cons, List.not_mem_nil, or_false] at he
      rcases he with rfl | rfl | rfl
      · exact ⟨⟨"a.png", rfl⟩, ⟨"r1", rfl⟩⟩
      · exact ⟨⟨"b.png", rfl⟩, ⟨"r2", rfl⟩⟩
      · exact ⟨⟨"c.png", rfl⟩, ⟨"r3", rfl⟩⟩)

/-- C2 — counterexample to the claim as stated: a page whose `retryCount`
(3) consecutive attempts all fail with generation API errors does NOT make
the run return immediately; processing continues with the next page, which
succeeds, and the run even reports `success = true` with that later page's
artifact — contradicting "returns immediately with success=false and
generatedFiles exactly the pages before the failing page". -/
theorem c2_counterexample :
    runAux ({} : RunRequest)
      [{ envs := [{ gen := .apiError "boom" none }, { gen := .apiError "boom" none },
                  { gen := .apiError "boom" none }] },
       { envs := [{ gen := .image "p2.png" }] }] none [] none =
      ({ success := true, generatedFiles := ["p2.png"], error := none },
       [.genCall, .genCall, .genCall, .genCall]) := by
  decide

/-! ### Claim C3: skipping already-PASSED pages -/

theorem processPage_skip (req : RunRequest) (pc : PageCtx) (f2 : String)
    (hpage : req.page = none) (hmem : pc.mem.phase2 = some f2) :
    processPage req pc = (.skipped f2, []) := by
  have h : memSkip req pc = true := by simp [memSkip, hpage, hmem]
  unfold processPage
  rw [if_pos h, hmem]
  rfl

theorem runAux_skip_step (req : RunRequest) (pc : PageCtx) (f2 : String)
    (rest : List PageCtx) (prev : Option String) (files : List String)
    (fe : Option String) (hpage : req.page = none)
    (hmem : pc.mem.phase2 = some f2) :
    runAux req (pc :: rest) prev files fe =
      runAux req rest (some f2) (files ++ [f2]) fe := by
  have hpp := processPage_skip req pc f2 hpage hmem
  simp only [runAux, hpp, List.nil_append]

theorem runAux_all_skipped (req : RunRequest) (hpage : req.page = none) :
    ∀ (pcs : List PageCtx) (prev : Option String) (files : List String)
      (fe : Option String),
      (∀ pc ∈ pcs, pc.mem.phase2.isSome = true) →
      (runAux req pcs prev files fe).2 = [] ∧
      (runAux req pcs prev files fe).1.generatedFiles =
        files ++ pcs.map (fun pc => pc.mem.phase2.getD "") := by
  intro pcs
  induction pcs with
  | nil =>
    intro prev files fe _
    constructor
    · by_cases h : files.length > 0 <;> simp [runAux, h]
    · by_cases h : files.length > 0
      · simp [runAux, h]
      · have hf : files = [] := by
          rcases files with _ | ⟨a, t⟩
          · rfl
          · simp at h
        subst hf
        simp [runAux]
  | cons pc rest ih =>
    intro prev files fe hall
    obtain ⟨f2, hf2⟩ := Option.isSome_iff_exists.mp
      (hall pc (List.mem_cons_self pc rest))
    rw [runAux_skip_step req pc f2 rest prev files fe hpage hf2]
    obtain ⟨h1, h2⟩ := ih (some f2) (files ++ [f2]) fe
      (fun q hq => hall q (List.mem_cons_of_mem pc hq))
    refine ⟨h1, ?_⟩
    rw [h2]
    simp [hf2]

/-- C3 — corrected idempotent skip.  Provided no explicit `--page` selector is
given, a page whose memory records Phase 2 as PASSED (with its artifact on
disk) is skipped entirely: no generation or review call happens, the stored
artifact is appended to `generatedFiles`, and it becomes the continuity
reference (`previousPagePath`) for the next page; hence a re-run whose pages
all have Phase 2 PASSED performs zero generation calls and returns exactly
the stored artifacts.  (An explicit `--page` request bypasses the skip; see
the counterexample.) -/
theorem c3_skip_amended :
    (∀ (req : RunRequest) (pc : PageCtx) (f2 : String),
      req.page = none → pc.mem.phase2 = some f2 →
      processPage req pc = (.skipped f2, [])) ∧
    (∀ (req : RunRequest) (pc : PageCtx) (f2 : String) (rest : List PageCtx)
       (prev : Option String) (files : List String) (fe : Option String),
      req.page = none → pc.mem.phase2 = some f2 →
      runAux req (pc :: rest) prev files fe =
        runAux req rest (some f2) (files ++ [f2]) fe) ∧
    (∀ (req : RunRequest) (pcs : List PageCtx) (prev : Option String)
       (files : List String) (fe : Option String),
      req.page = none → (∀ pc ∈ pcs, pc.mem.phase2.isSome = true) →
      (runAux req pcs prev files fe).2 = [] ∧
      (runAux req pcs prev files fe).1.generatedFiles =
        files ++ pcs.map (fun pc => pc.mem.phase2.getD "")) :=
  ⟨fun req pc f2 hp hm => processPage_skip req pc f2 hp hm,
   fun req pc f2 rest prev files fe hp hm =>
     runAux_skip_step req pc f2 rest prev files fe hp hm,
   fun req pcs prev files fe hp hall =>
     runAux_all_skipped req hp pcs prev files fe hall⟩

/-- Witness for `c3_skip_amended` at a concrete input. -/
theorem c3_skip_amended_witness :
    processPage ({} : RunRequest)
      ({ mem := { phase2 := some "f1.png" } } : PageCtx) =
      (.skipped "f1.png", []) :=
  c3_skip_amended.1 ({} : RunRequest)
    ({ mem := { phase2 := some "f1.png" } } : PageCtx) "f1.png" rfl rfl

/-- C3 — counterexample to the claim as stated: with an explicit `--page`
request, a page whose memory records Phase 2 as PASSED is NOT skipped — a
fresh generation call is made (`// Only skip if NOT explicitly requested via
--page`). -/
theorem c3_counterexample :
    processPage ({ page := some "1" } : RunRequest)
      ({ mem := { phase2 := some "final.png" },
         envs := [{ gen := .image "new.png" }] } : PageCtx) =
      (.completed "new.png", [.genCall]) := by
  decide

/-! ### Claim C4: two-phase resume from memory -/

theorem genCallCount_zero_of_phase2 (evs : List PipeEvent) (a p : String)
    (h : ∀ ev ∈ evs, ev = PipeEvent.phase2Call a p) : genCallCount evs = 0 := by
  unfold genCallCount
  rw [List.length_eq_zero, List.filter_eq_nil_iff]
  intro ev hev
  rw [h ev hev]
  simp [isGenCall]

/-- When the retry loop starts from a stored phase-1 artifact and no phase-1
re-review fails, every external call it makes is the phase-2 lettering call
on the stored artifact with the stored prompt — no generation call at all. -/
theorem attemptLoop_resume_events (req : RunRequest) (bp : String)
    (art pr : String) (hreq : req.twoPhase = true) (hpr : pr ≠ "") :
    ∀ (n : Nat) (envs : List AttemptEnv),
      (∀ e ∈ envs, e.phase1Review = .pass) →
      ∀ ev ∈ (attemptLoop req bp (some pr) (some art) n envs).2,
        ev = .phase2Call art pr := by
  intro n
  induction n with
  | zero =>
    intro envs _ ev hev
    simp [attemptLoop] at hev
  | succ n ih =>
    intro envs hall ev hev
    cases envs with
    | nil => simp [attemptLoop] at hev
    | cons e rest =>
      have hrev := hall e (List.mem_cons_self e rest)
      have hjs : jsOrStr (some pr) bp = pr := by simp [jsOrStr, hpr]
      cases hfr : e.finalReview with
      | pass =>
        have hstep : stepAttempt req bp (some pr) (some art) e (n == 0) =
            (StepOut.succeed (match e.phase2Result with | some q => q | none => art),
             [PipeEvent.phase2Call art pr]) := by
          show afterSave req bp (some pr) art e (n == 0) = _
          unfold afterSave
          rw [hreq]
          simp only [if_true]
          rw [hrev, hfr, hjs]
        simp only [attemptLoop, hstep] at hev
        simpa using hev
      | fail reason =>
        have hstep : stepAttempt req bp (some pr) (some art) e (n == 0) =
            (if (n == 0) = true then StepOut.abort reason
             else StepOut.nextAttempt (some art) none,
             [PipeEvent.phase2Call art pr]) := by
          show afterSave req bp (some pr) art e (n == 0) = _
          unfold afterSave
          rw [hreq]
          simp only [if_true]
          rw [hrev, hfr, hjs]
          cases hn : (n == 0) <;> rfl
        cases n with
        | zero =>
          have hstep2 : stepAttempt req bp (some pr) (some art) e ((0 : Nat) == 0) =
              (StepOut.abort reason, [PipeEvent.phase2Call art pr]) := by
            rw [hstep]
            rfl
          simp only [attemptLoop, hstep2] at hev
          simpa using hev
        | succ n2 =>
          have hstep2 : stepAttempt req bp (some pr) (some art) e ((n2 + 1 : Nat) == 0) =
              (StepOut.nextAttempt (some art) none, [PipeEvent.phase2Call art pr]) := by
            rw [hstep]
            rfl
          simp only [attemptLoop, hstep2] at hev
          rcases (by simpa using hev :
              ev = PipeEvent.phase2Call art pr ∨
              ev ∈ (attemptLoop req bp (some pr) (some art) (n2 + 1) rest).2)
            with h | h
          · exact h
          · exact ih rest (fun x hx => hall x (List.mem_cons_of_mem e hx)) ev h

/-- C4 — corrected resumability.  In two-phase mode, for a page whose memory
records Phase 1 as PASSED (with stored artifact `art` and stored nonempty
prompt `pr`) but not Phase 2, as long as no phase-1 re-review verdict fails,
processing the page performs zero phase-1 generation calls, and every
phase-2 lettering call it makes receives exactly the stored artifact and the
stored prompt.  (A failing re-review of the stored artifact deletes it and
regenerates Phase 1; see the counterexample.) -/
theorem c4_resume_amended (req : RunRequest) (pc : PageCtx) (art pr : String)
    (hreq : req.twoPhase = true) (hp1 : pc.mem.phase1 = some art)
    (hppr : pc.mem.phase1Prompt = some pr) (hpr : pr ≠ "")
    (hp2 : pc.mem.phase2 = none)
    (hrev : ∀ e ∈ pc.envs, e.phase1Review = .pass) :
    (∀ ev ∈ (processPage req pc).2, ev = .phase2Call art pr) ∧
    genCallCount (processPage req pc).2 = 0 := by
  have hresume : resumeArt req pc = some art := by simp [resumeArt, hreq, hp1]
  have hlat : latestOf req pc = none := by simp [latestOf, hresume]
  have hloopArt : loopArt req pc = some art := by simp [loopArt, hresume]
  have hrp : resumePrompt req pc = some pr := by
    simp [resumePrompt, hreq, hp1, hppr]
  have heq := processPage_eq_loop req pc (memSkip_of_phase2_none req pc hp2)
    (by simp [diskFinalSkip, hlat])
  rw [hloopArt, hrp] at heq
  have hall : ∀ ev ∈ (processPage req pc).2, ev = PipeEvent.phase2Call art pr := by
    intro ev hev
    rw [heq] at hev
    exact attemptLoop_resume_events req pc.builtPrompt art pr hreq hpr
      (jsOrNat req.retryCount 3) pc.envs hrev ev hev
  exact ⟨hall, genCallCount_zero_of_phase2 _ art pr hall⟩

/-- Witness for `c4_resume_amended` at a concrete page. -/
theorem c4_resume_amended_witness :
    genCallCount (processPage ({ twoPhase := true } : RunRequest)
      ({ mem := { phase1 := some "art.png", phase1Prompt := some "P" },
         envs := [{}] } : PageCtx)).2 = 0 :=
  (c4_resume_amended ({ twoPhase := true } : RunRequest)
    ({ mem := { phase1 := some "art.png", phase1Prompt := some "P" },
       envs := [{}] } : PageCtx) "art.png" "P" rfl rfl rfl (by decide) rfl
    (by intro e he; simp at he; rw [he])).2

/-- C4 — counterexample to the claim as stated: when the re-review of the
stored Phase 1 artifact fails, the artifact is deleted and Phase 1 is
regenerated — a run against a memory with Phase 1 PASSED can still perform a
phase-1 generation call. -/
theorem c4_counterexample :
    processPage ({ twoPhase := true } : RunRequest)
      ({ mem := { phase1 := some "art.png", phase1Prompt := some "P" },
         envs := [{ phase1Review := .fail "wrong face" },
                  { gen := .image "art2.png" }] } : PageCtx) =
      (.completed "art2.png", [.genCall, .phase2Call "art2.png" "P"]) := by
  decide

/-! ### Claim C5: no fatal error class -/

theorem stepAttempt_apiError (req : RunRequest) (bp : String) (pp : Option String)
    (msg : String) (st : Option Nat) (e : AttemptEnv) (il : Bool)
    (hgen : e.gen = .apiError msg st) :
    stepAttempt req bp pp none e il =
      (.nextAttempt none (some (handleApiError msg st)), [.genCall]) := by
  unfold stepAttempt
  rw [hgen]

/-- An API error on a non-final attempt is retried: the loop proceeds to the
next attempt with one more generation call recorded — uniformly in the error
message and status, so authentication and quota errors are retried exactly
like any other error. -/
theorem attemptLoop_apiError_retries (req : RunRequest) (bp : String)
    (pp : Option String) (msg : String) (st : Option Nat) (e : AttemptEnv)
    (n : Nat) (rest : List AttemptEnv) (hgen : e.gen = .apiError msg st)
    (hn : n ≠ 0) :
    attemptLoop req bp pp none (n + 1) (e :: rest) =
      ((attemptLoop req bp pp none n rest).1,
       .genCall :: (attemptLoop req bp pp none n rest).2) := by
  cases n with
  | zero => exact absurd rfl hn
  | succ k =>
    have hstep := stepAttempt_apiError req bp pp msg st e ((k + 1 : Nat) == 0) hgen
    simp only [attemptLoop, hstep]
    rfl

/-- A page whose every attempt throws an API error exhausts its budget
without aborting. -/
theorem attemptLoop_all_apiError (req : RunRequest) (bp : String)
    (pp : Option String) :
    ∀ (n : Nat) (envs : List AttemptEnv), envs.length = n →
      (∀ e ∈ envs, ∃ msg st, e.gen = .apiError msg st) →
      ∃ em, attemptLoop req bp pp none n envs =
        (.exhausted em, List.replicate n .genCall) := by
  intro n
  induction n with
  | zero =>
    intro envs hlen _
    have : envs = [] := List.length_eq_zero.mp hlen
    subst this
    exact ⟨none, rfl⟩
  | succ n ih =>
    intro envs hlen hall
    cases envs with
    | nil => simp at hlen
    | cons e rest =>
      obtain ⟨msg, st, hgen⟩ := hall e (List.mem_cons_self e rest)
      have hstep := stepAttempt_apiError req bp pp msg st e ((n : Nat) == 0) hgen
      cases n with
      | zero =>
        refine ⟨some (handleApiError msg st), ?_⟩
        simp only [attemptLoop, hstep]
        rfl
      | succ n2 =>
        obtain ⟨em, hrec⟩ := ih rest (by simpa using hlen)
          (fun x hx => hall x (List.mem_cons_of_mem e hx))
        refine ⟨em, ?_⟩
        simp only [attemptLoop, hstep]
        rw [hrec]
        simp [List.replicate_succ]

/-- C5 — corrected error handling.  `handleApiError` classifies
authentication and quota errors into messages only; inside the page loop
every API error, authentication and quota errors included, is handled like
any other per-attempt error: it is retried within the budget, and when a
page exhausts its budget on API errors the page is abandoned (its message
recorded as the run's first error) and the run continues with the remaining
pages — nothing aborts the run. -/
theorem c5_error_handling_amended :
    (handleApiError "api key not valid" none =
      "Authentication failed: The provided API key is invalid. Please check your NANOBANANA_GEMINI_API_KEY environment variable." ∧
     handleApiError "quota exceeded" none =
      "API quota exceeded. Please check your usage and limits in the Google Cloud console.") ∧
    (∀ (req : RunRequest) (bp : String) (pp : Option String) (msg : String)
       (st : Option Nat) (e : AttemptEnv) (n : Nat) (rest : List AttemptEnv),
      e.gen = .apiError msg st → n ≠ 0 →
      attemptLoop req bp pp none (n + 1) (e :: rest) =
        ((attemptLoop req bp pp none n rest).1,
         .genCall :: (attemptLoop req bp pp none n rest).2)) ∧
    (∀ (req : RunRequest) (pc : PageCtx), pc.mem = {} → pc.latestFile = none →
      pc.envs.length = jsOrNat req.retryCount 3 →
      (∀ e ∈ pc.envs, ∃ msg st, e.gen = .apiError msg st) →
      ∃ em, processPage req pc =
        (.exhausted em, List.replicate (jsOrNat req.retryCount 3) .genCall)) ∧
    (∀ (req : RunRequest) (pc : PageCtx) (rest : List PageCtx)
       (prev : Option String) (files : List String) (fe : Option String)
       (em : Option String) (evs : List PipeEvent),
      processPage req pc = (.exhausted em, evs) →
      runAux req (pc :: rest) prev files fe =
        ((runAux req rest prev files
            (match fe with | some x => some x | none => em)).1,
         evs ++ (runAux req rest prev files
            (match fe with | some x => some x | none => em)).2)) := by
  refine ⟨⟨by decide, by decide⟩, ?_, ?_, ?_⟩
  · intro req bp pp msg st e n rest hgen hn
    exact attemptLoop_apiError_retries req bp pp msg st e n rest hgen hn
  · intro req pc hm hlatest hlen hall
    obtain ⟨em, hloop⟩ := attemptLoop_all_apiError req pc.builtPrompt
      (resumePrompt req pc) (jsOrNat req.retryCount 3) pc.envs hlen hall
    have hp1 : pc.mem.phase1 = none := by rw [hm]
    have hp2 : pc.mem.phase2 = none := by rw [hm]
    have hresume : resumeArt req pc = none := by
      unfold resumeArt
      rw [hp1]
      exact ite_self none
    have hloopArt : loopArt req pc = none := by
      simp [loopArt, hresume, latestOf_of_none req pc hlatest]
    refine ⟨em, ?_⟩
    rw [processPage_eq_loop req pc (memSkip_of_phase2_none req pc hp2)
      (diskFinalSkip_of_latest_none req pc hlatest), hloopArt, hloop]
    rfl
  · intro req pc rest prev files fe em evs hpp
    simp only [runAux, hpp]

/-- Witness for `c5_error_handling_amended`: one authentication error
retried into a success on the next attempt. -/
theorem c5_error_handling_amended_witness :
    attemptLoop ({} : RunRequest) "" none none 2
      [{ gen := .apiError "api key not valid" none },
       { gen := .image "p1.png" }] =
      ((attemptLoop ({} : RunRequest) "" none none 1
          [{ gen := .image "p1.png" }]).1,
       .genCall :: (attemptLoop ({} : RunRequest) "" none none 1
          [{ gen := .image "p1.png" }]).2) :=
  c5_error_handling_amended.2.1 ({} : RunRequest) "" none
    "api key not valid" none { gen := .apiError "api key not valid" none } 1
    [{ gen := .image "p1.png" }] rfl (by decide)

/-- C5 — counterexample to the claim as stated: a generation attempt that
raises an authentication error (classified as such by `handleApiError`) does
not abort the run and is retried: the page succeeds on its second attempt
and the run completes successfully. -/
theorem c5_counterexample :
    runAux ({} : RunRequest)
      [{ envs := [{ gen := .apiError "api key not valid" none },
                  { gen := .image "p1.png" }] }] none [] none =
      ({ success := true, generatedFiles := ["p1.png"], error := none },
       [.genCall, .genCall]) := by
  decide

end NanoBanana
